import Mathlib

/-!
# Verification of the SolidityDiagram semantic-resolution core

This file gives a shallow embedding, in Lean 4, of the two core components of
the repository — the `InheritanceResolver` and the `DataFlowAnalyzer` from
`src/analyzer/inheritanceResolver.ts` — and proves or refutes the frozen
specification claims about them.

Modelling conventions:
* A TypeScript `Map<string, α>` is modelled as an insertion-ordered
  association list `AList α`.  `Map.get` is `alistGet` (first matching key),
  `Map.set` is `alistSet` (replace in place, or append a fresh key), matching
  JavaScript `Map` semantics including iteration order.
* A TypeScript `Set<string>` is modelled as an insertion-ordered duplicate-free
  `List String`; `Set.add` is `addUnique`.
* Optional string fields that the code only tests for truthiness are modelled
  as `String` (with `""` standing for `undefined`/empty).
* The unbounded recursion of `collectInheritors` (which has no cycle guard in
  the source) is modelled with an explicit `fuel` parameter; a `none` result
  means the recursion nests deeper than `fuel` stack frames.  Divergence of
  the TypeScript original corresponds to the Lean function returning `none`
  for every fuel.
-/

namespace SolidityDiagram

/-- Insertion-ordered association list, modelling a TypeScript `Map<string, α>`. -/
abbrev AList (α : Type) := List (String × α)

/-- `Map.get`: value of the first entry with the given key. -/
def alistGet {α : Type} : AList α → String → Option α
  | [], _ => none
  | (k', v) :: rest, k => if k' == k then some v else alistGet rest k

/-- `Map.set`: replace the value in place if the key is present, else append. -/
def alistSet {α : Type} : AList α → String → α → AList α
  | [], k, v => [(k, v)]
  | (k', v') :: rest, k, v =>
    if k' == k then (k, v) :: rest else (k', v') :: alistSet rest k v

/-- `Set.add` on an insertion-ordered duplicate-free list. -/
def addUnique (l : List String) (x : String) : List String :=
  if l.contains x then l else l ++ [x]

/-- Push each element not already present (`if (!list.includes(x)) list.push(x)`). -/
def addMissing (acc : List String) (libs : List String) : List String :=
  libs.foldl (fun acc lib => if acc.contains lib then acc else acc ++ [lib]) acc

/-- JavaScript `String.prototype.trim()`: strip leading and trailing
whitespace.  Defined structurally over the character list (Lean's own
`String.trim` does not reduce in the kernel). -/
def jsTrim (s : String) : String :=
  ⟨(((s.data.dropWhile Char.isWhitespace).reverse).dropWhile Char.isWhitespace).reverse⟩

/-! ## Source model (the `types.ts` records, as used by the analyzer) -/

/-- Contract kind (`'contract' | 'interface' | 'library' | 'abstract'`). -/
inductive ContractKind where
  | contract
  | interface
  | library
  | abstract
deriving DecidableEq, Repr

/-- A `using LibraryName for Type` directive. -/
structure UsingDirective where
  libraryName : String
  forType : String
  isGlobal : Bool := false
deriving DecidableEq, Repr

/-- A function parameter. -/
structure ParameterInfo where
  name : String
  typeName : String := ""
deriving DecidableEq, Repr

/-- A point in a source file (`location.start` / `location.end`). -/
structure SourcePos where
  line : Nat := 0
  column : Nat := 0
deriving DecidableEq, Repr

/-- A source range; `stop` models the TypeScript `end` field. -/
structure SourceLocation where
  start : SourcePos := {}
  stop : SourcePos := {}
deriving DecidableEq, Repr

/-- A parsed function (`FunctionInfo`). -/
structure FunctionInfo where
  name : String
  visibility : String := ""
  mutability : String := ""
  parameters : List ParameterInfo := []
  returnParameters : List ParameterInfo := []
  modifiers : List String := []
  body : String := ""
  fullSource : String := ""
  location : SourceLocation := {}
  filePath : String := ""
deriving DecidableEq, Repr

/-- A parsed contract-like type (`ContractInfo`). -/
structure ContractInfo where
  name : String
  kind : ContractKind := ContractKind.contract
  baseContracts : List String := []
  usingDirectives : List UsingDirective := []
  functions : List FunctionInfo := []
  structs : List String := []
  enums : List String := []
  stateVariables : List String := []
  location : SourceLocation := {}
  filePath : String := ""
deriving DecidableEq, Repr

/-- One resolved implementation (`ImplementationInfo`). -/
structure ImplementationInfo where
  contractName : String
  contractKind : ContractKind
  functionInfo : FunctionInfo
  filePath : String
  isInherited : Bool
  inheritanceChain : List String
deriving DecidableEq, Repr

/-- A parsed file (`ParsedFile`): the contracts it declares. -/
structure ParsedFile where
  contracts : List ContractInfo
deriving DecidableEq, Repr

/-- The workspace snapshot: `Map<filePath, ParsedFile>` in iteration order. -/
abbrev Workspace := List (String × ParsedFile)

/-- The `InheritanceResolver`'s five internal maps. -/
structure Resolver where
  contractMap : AList ContractInfo := []
  inheritedBy : AList (List String) := []
  inheritanceChains : AList (List String) := []
  typeToLibraries : AList (List String) := []
  contractUsingDirectives : AList (List UsingDirective) := []
deriving DecidableEq, Repr

/-! ## `buildInheritanceGraph` -/

/-- First-pass handling of one using-directive: ensure the `forType` key exists
in the type→libraries map and push the library name if not already present. -/
def registerDirective (t2l : AList (List String)) (d : UsingDirective) :
    AList (List String) :=
  let cur := (alistGet t2l d.forType).getD []
  alistSet t2l d.forType
    (if cur.contains d.libraryName then cur else cur ++ [d.libraryName])

/-- First-pass handling of one contract: record it in the contract map and, if
it has using-directives, in the directive map and the type→libraries map. -/
def pass1Step (st : AList ContractInfo × AList (List String) × AList (List UsingDirective))
    (contract : ContractInfo) :
    AList ContractInfo × AList (List String) × AList (List UsingDirective) :=
  let cmap := alistSet st.1 contract.name contract
  if contract.usingDirectives.isEmpty then
    (cmap, st.2.1, st.2.2)
  else
    (cmap,
     contract.usingDirectives.foldl registerDirective st.2.1,
     alistSet st.2.2 contract.name contract.usingDirectives)

/-- First pass of `buildInheritanceGraph`: loop over the files, then over each
file's contracts. -/
def pass1 (workspaceFiles : Workspace) :
    AList ContractInfo × AList (List String) × AList (List UsingDirective) :=
  workspaceFiles.foldl
    (fun st file => file.2.contracts.foldl pass1Step st) ([], [], [])

/-- Second pass: the inverse `inheritedBy` map, from declared base lists. -/
def pass2 (cmap : AList ContractInfo) : AList (List String) :=
  cmap.foldl
    (fun inhB p =>
      p.2.baseContracts.foldl
        (fun inhB baseName =>
          alistSet inhB baseName (addUnique ((alistGet inhB baseName).getD []) p.1))
        inhB)
    []

/-- Merge a base chain into the accumulated chain, skipping names already
present (`if (!chain.includes(name)) chain.push(name)`). -/
def mergeChain (chain : List String) (baseChain : List String) : List String :=
  baseChain.foldl (fun ch n => if ch.contains n then ch else ch ++ [n]) chain

/-- Number of contract-map keys not yet on the `visited` path; the termination
measure of `computeInheritanceChain`. -/
def unvisitedKeys {α : Type} (m : AList α) (visited : List String) : Nat :=
  (m.filter (fun p => !visited.contains p.1)).length

theorem filter_length_mono {α : Type} (l : List α) (p q : α → Bool)
    (h : ∀ a, p a = true → q a = true) :
    (l.filter p).length ≤ (l.filter q).length := by
  induction l with
  | nil => simp
  | cons a t ih =>
    by_cases hp : p a = true
    · rw [List.filter_cons_of_pos hp, List.filter_cons_of_pos (h a hp)]
      simpa using ih
    · rw [List.filter_cons_of_neg (by simpa using hp)]
      cases hq : q a
      · rw [List.filter_cons_of_neg (by simp [hq])]; exact ih
      · rw [List.filter_cons_of_pos hq]
        exact Nat.le_succ_of_le ih

theorem unvisitedKeys_cons_lt {α : Type} {m : AList α} {visited : List String}
    {k : String} (hk : alistGet m k ≠ none) (hnv : visited.contains k = false) :
    unvisitedKeys m (k :: visited) < unvisitedKeys m visited := by
  induction m with
  | nil => simp [alistGet] at hk
  | cons p rest ih =>
    obtain ⟨k', v⟩ := p
    unfold unvisitedKeys
    simp only [List.filter_cons]
    by_cases hkk : (k' == k) = true
    · have hkeq : k' = k := by simpa using hkk
      have h1 : ((k :: visited).contains k') = true := by
        rw [List.contains_cons]; simp [hkeq]
      have h2 : (visited.contains k') = false := by rw [hkeq]; exact hnv
      have hmono :
          (rest.filter (fun p => !(k :: visited).contains p.1)).length ≤
            (rest.filter (fun p => !visited.contains p.1)).length := by
        apply filter_length_mono
        intro a ha
        simp only [List.contains_cons, Bool.not_or, Bool.and_eq_true,
          Bool.not_eq_true'] at ha
        rw [ha.2]
        rfl
      simp only [h1, h2, Bool.not_true, Bool.not_false, if_false, if_true,
        List.length_cons]
      exact Nat.lt_succ_of_le hmono
    · have hget : alistGet rest k ≠ none := by
        simpa [alistGet, hkk] using hk
      have hrec := ih hget
      unfold unvisitedKeys at hrec
      have hsame : ((k :: visited).contains k') = (visited.contains k') := by
        rw [List.contains_cons]
        have hne : (k' == k) = false := by simpa using hkk
        simp [hne]
      cases hc : (visited.contains k') with
      | true =>
        simp only [hsame, hc, Bool.not_true, if_false]
        exact hrec
      | false =>
        simp only [hsame, hc, Bool.not_false, if_true, List.length_cons]
        exact Nat.succ_lt_succ hrec

/-- The linearized inheritance chain: depth-first expansion of the base lists,
seeded with the type itself; names already on the current path are skipped
(cycle guard), and names already in the accumulated chain are not re-added. -/
def computeInheritanceChain (cmap : AList ContractInfo) (contractName : String)
    (visited : List String) : List String :=
  if visited.contains contractName then []
  else
    match _h : alistGet cmap contractName with
    | none => [contractName]
    | some contract =>
      contract.baseContracts.foldl
        (fun chain baseName =>
          mergeChain chain
            (computeInheritanceChain cmap baseName (contractName :: visited)))
        [contractName]
termination_by unvisitedKeys cmap visited
decreasing_by
  exact unvisitedKeys_cons_lt (by simp [_h]) (by simpa using ‹¬visited.contains contractName = true›)

/-- Third pass: compute and store the linearized chain of every known type. -/
def pass3 (cmap : AList ContractInfo) : AList (List String) :=
  cmap.foldl
    (fun chains p => alistSet chains p.1 (computeInheritanceChain cmap p.1 []))
    []

/-- `buildInheritanceGraph`: rebuild all five maps from the workspace snapshot. -/
def buildInheritanceGraph (workspaceFiles : Workspace) : Resolver :=
  let st := pass1 workspaceFiles
  { contractMap := st.1
    inheritedBy := pass2 st.1
    inheritanceChains := pass3 st.1
    typeToLibraries := st.2.1
    contractUsingDirectives := st.2.2 }

/-! ### A fuel-indexed executable twin of `computeInheritanceChain`

`computeInheritanceChain` is defined by well-founded recursion and hence does
not reduce inside the kernel; `chainFuel` is a structurally recursive copy
(with explicit fuel) proved equal to it whenever the fuel exceeds the number
of unvisited contract-map keys.  It exists purely so that concrete instances
can be evaluated by `decide`. -/

def chainFuel : Nat → AList ContractInfo → String → List String → List String
  | 0, _, _, _ => []
  | fuel + 1, cmap, contractName, visited =>
    if visited.contains contractName then []
    else
      match alistGet cmap contractName with
      | none => [contractName]
      | some contract =>
        contract.baseContracts.foldl
          (fun chain baseName =>
            mergeChain chain (chainFuel fuel cmap baseName (contractName :: visited)))
          [contractName]

theorem computeInheritanceChain_eq_chainFuel :
    ∀ (fuel : Nat) (cmap : AList ContractInfo) (contractName : String)
      (visited : List String), unvisitedKeys cmap visited < fuel →
      computeInheritanceChain cmap contractName visited =
        chainFuel fuel cmap contractName visited := by
  intro fuel
  induction fuel with
  | zero => intro _ _ _ h; omega
  | succ n ih =>
    intro cmap contractName visited hlt
    rw [computeInheritanceChain, chainFuel]
    by_cases hv : visited.contains contractName = true
    · rw [if_pos hv, if_pos hv]
    · rw [if_neg hv, if_neg hv]
      cases hget : alistGet cmap contractName with
      | none => simp
      | some contract =>
        simp only
        apply List.foldl_ext
        intro chain baseName _
        have hdec : unvisitedKeys cmap (contractName :: visited) < n := by
          have := unvisitedKeys_cons_lt (m := cmap) (k := contractName)
            (by simp [hget]) (by simpa using hv)
          omega
        rw [ih cmap baseName (contractName :: visited) hdec]

/-- Executable variant of `pass3` (same result, via `chainFuel`). -/
def pass3Exec (cmap : AList ContractInfo) : AList (List String) :=
  cmap.foldl
    (fun chains p =>
      alistSet chains p.1 (chainFuel (cmap.length + 1) cmap p.1 []))
    []

theorem unvisitedKeys_le_length {α : Type} (m : AList α) (visited : List String) :
    unvisitedKeys m visited ≤ m.length := by
  unfold unvisitedKeys
  exact List.length_filter_le _ _

theorem pass3_eq_pass3Exec (cmap : AList ContractInfo) :
    pass3 cmap = pass3Exec cmap := by
  unfold pass3 pass3Exec
  apply List.foldl_ext
  intro chains p _
  rw [computeInheritanceChain_eq_chainFuel (cmap.length + 1) cmap p.1 []
    (Nat.lt_succ_of_le (unvisitedKeys_le_length cmap []))]

/-- Executable variant of `buildInheritanceGraph` (same result). -/
def buildGraphExec (workspaceFiles : Workspace) : Resolver :=
  let st := pass1 workspaceFiles
  { contractMap := st.1
    inheritedBy := pass2 st.1
    inheritanceChains := pass3Exec st.1
    typeToLibraries := st.2.1
    contractUsingDirectives := st.2.2 }

theorem buildInheritanceGraph_eq_exec (workspaceFiles : Workspace) :
    buildInheritanceGraph workspaceFiles = buildGraphExec workspaceFiles := by
  unfold buildInheritanceGraph buildGraphExec
  simp only [pass3_eq_pass3Exec]

/-! ## Resolver queries -/

/-- The inner recursion of `getImplementingContracts`.  The source recursion
has **no** visited-set guard (`collectInheritors` recurses on every inheritor
unconditionally), so it does not terminate on a cyclic `inheritedBy` graph.
`fuel` bounds the recursion depth; `none` models a recursion deeper than
`fuel` frames (in JavaScript: a stack overflow / divergence). -/
def collectInheritors (inhB : AList (List String)) :
    Nat → String → List String → Option (List String)
  | 0, _, _ => none
  | fuel + 1, name, result =>
    match alistGet inhB name with
    | none => some result
    | some inheritors =>
      inheritors.foldl
        (fun acc inheritor =>
          match acc with
          | none => none
          | some res => collectInheritors inhB fuel inheritor (addUnique res inheritor))
        (some result)

/-- `getImplementingContracts`: transitive closure over the `inheritedBy` map,
starting from an empty result set. -/
def getImplementingContracts (r : Resolver) (fuel : Nat) (interfaceName : String) :
    Option (List String) :=
  collectInheritors r.inheritedBy fuel interfaceName []

/-- The chain walk of `findMethodInContract`: the first chain element that is a
known, non-interface type with a non-empty-body function named `methodName`. -/
def findMethodInChain (r : Resolver) (fullChain : List String)
    (contractName methodName : String) : List String → Option ImplementationInfo
  | [] => none
  | name :: rest =>
    match alistGet r.contractMap name with
    | none => findMethodInChain r fullChain contractName methodName rest
    | some contract =>
      if contract.kind = ContractKind.interface then
        findMethodInChain r fullChain contractName methodName rest
      else
        match contract.functions.find? (fun f => f.name == methodName) with
        | none => findMethodInChain r fullChain contractName methodName rest
        | some func =>
          if jsTrim func.body ≠ "" then
            some { contractName := name
                   contractKind := contract.kind
                   functionInfo := func
                   filePath := contract.filePath
                   isInherited := name != contractName
                   inheritanceChain := fullChain }
          else findMethodInChain r fullChain contractName methodName rest

/-- `findMethodInContract`: walk the contract's linearized inheritance chain. -/
def findMethodInContract (r : Resolver) (contractName methodName : String) :
    Option ImplementationInfo :=
  let chain := (alistGet r.inheritanceChains contractName).getD [contractName]
  findMethodInChain r chain contractName methodName chain

/-- `findImplementations`: for every (transitive) inheritor that is not itself
an interface, resolve the method through its inheritance chain. -/
def findImplementations (r : Resolver) (fuel : Nat)
    (interfaceName methodName : String) : Option (List ImplementationInfo) :=
  (getImplementingContracts r fuel interfaceName).map fun implementingContracts =>
    implementingContracts.filterMap fun contractName =>
      match alistGet r.contractMap contractName with
      | none => none
      | some contract =>
        if contract.kind = ContractKind.interface then none
        else findMethodInContract r contractName methodName

/-- `findContractsWithMethod`: global scan over every non-interface type for a
non-empty-body method of the given name (optionally filtered by arity). -/
def findContractsWithMethod (r : Resolver) (methodName : String)
    (paramCount : Option Nat := none) : List ImplementationInfo :=
  r.contractMap.foldl
    (fun implementations p =>
      if p.2.kind = ContractKind.interface then implementations
      else
        implementations ++
          p.2.functions.filterMap (fun func =>
            if func.name == methodName then
              if paramCount.isSome && (decide (func.parameters.length ≠ paramCount.getD 0)) then
                none
              else if jsTrim func.body ≠ "" then
                some { contractName := p.1
                       contractKind := p.2.kind
                       functionInfo := func
                       filePath := p.2.filePath
                       isInherited := false
                       inheritanceChain :=
                         (alistGet r.inheritanceChains p.1).getD [p.1] }
              else none
            else none))
    []

/-- The libraries matched by the context contract's using-directives
(`forType === typeName || forType === '*'`), pushed *without* deduplication. -/
def contextLibraries (r : Resolver) (typeName : String)
    (contextContract : Option String) : List String :=
  match contextContract with
  | none => []
  | some ctx =>
    match alistGet r.contractUsingDirectives ctx with
    | none => []
    | some directives =>
      directives.foldl
        (fun acc d =>
          if (d.forType == typeName || d.forType == "*") = true then
            acc ++ [d.libraryName]
          else acc)
        []

/-- The candidate list `librariesToSearch` of `findLibraryMethods`: context
matches first, then the global type→libraries entry, then the wildcard entry,
the latter two appended only when not already present. -/
def librariesToSearch (r : Resolver) (typeName : String)
    (contextContract : Option String) : List String :=
  let fromContext := contextLibraries r typeName contextContract
  let withGlobal := addMissing fromContext ((alistGet r.typeToLibraries typeName).getD [])
  addMissing withGlobal ((alistGet r.typeToLibraries "*").getD [])

/-- The per-candidate check of `findLibraryMethods`: the candidate must be a
known type of kind library defining a non-empty-body method `methodName`. -/
def libraryCandidate (r : Resolver) (methodName libraryName : String) :
    Option ImplementationInfo :=
  match alistGet r.contractMap libraryName with
  | none => none
  | some library =>
    if library.kind ≠ ContractKind.library then none
    else
      match library.functions.find? (fun f => f.name == methodName) with
      | none => none
      | some func =>
        if jsTrim func.body ≠ "" then
          some { contractName := libraryName
                 contractKind := ContractKind.library
                 functionInfo := func
                 filePath := library.filePath
                 isInherited := false
                 inheritanceChain := [libraryName] }
        else none

/-- `findLibraryMethods`: search each candidate library for the method. -/
def findLibraryMethods (r : Resolver) (typeName methodName : String)
    (contextContract : Option String := none) : List ImplementationInfo :=
  (librariesToSearch r typeName contextContract).filterMap
    (libraryCandidate r methodName)

/-- `findAllImplementations`: library extension methods, then interface
implementations, then — only if both are empty — the global method scan. -/
def findAllImplementations (r : Resolver) (fuel : Nat)
    (interfaceName methodName : String) (contextContract : Option String := none) :
    Option (List ImplementationInfo) :=
  let libraryImpls := findLibraryMethods r interfaceName methodName contextContract
  (findImplementations r fuel interfaceName methodName).map fun interfaceImpls =>
    let implementations := libraryImpls ++ interfaceImpls
    if implementations.isEmpty then findContractsWithMethod r methodName none
    else implementations

/-! ## Association-list lemmas -/

theorem alistGet_alistSet {α : Type} (m : AList α) (k k' : String) (v : α) :
    alistGet (alistSet m k v) k' = if k == k' then some v else alistGet m k' := by
  induction m with
  | nil => rfl
  | cons p rest ih =>
    obtain ⟨k₀, v₀⟩ := p
    by_cases h0 : (k₀ == k) = true
    · have hk : k₀ = k := by simpa using h0
      subst hk
      simp only [alistSet, beq_self_eq_true, if_true, alistGet]
      by_cases h1 : (k₀ == k') = true
      · simp [h1]
      · simp [h1]
    · have h0' : (k₀ == k) = false := by simpa using h0
      simp only [alistSet, h0', Bool.false_eq_true, if_false, alistGet]
      by_cases h1 : (k₀ == k') = true
      · have hk : k₀ = k' := by simpa using h1
        subst hk
        have hne : k₀ ≠ k := by simpa using h0'
        have h2 : (k == k₀) = false := by simpa using Ne.symm hne
        simp [h1, h2]
      · have h1' : (k₀ == k') = false := by simpa using h1
        simp only [h1', Bool.false_eq_true, if_false]
        exact ih

theorem alistGet_some_mem_keys {α : Type} {m : AList α} {k : String} {v : α}
    (h : alistGet m k = some v) : k ∈ m.map Prod.fst := by
  induction m with
  | nil => simp [alistGet] at h
  | cons p rest ih =>
    obtain ⟨k₀, v₀⟩ := p
    by_cases h0 : (k₀ == k) = true
    · have : k₀ = k := by simpa using h0
      simp [this]
    · have h0' : (k₀ == k) = false := by simpa using h0
      simp only [alistGet, h0', Bool.false_eq_true, if_false] at h
      simp [ih h]

/-- A left fold that `set`s the value `g key` for every key of `l` on top of
`acc`: characterization of the final lookups. -/
theorem alistGet_foldl_set {α β : Type} (g : String → α) :
    ∀ (l : List (String × β)) (acc : AList α) (k : String),
      alistGet (l.foldl (fun m p => alistSet m p.1 (g p.1)) acc) k =
        if k ∈ l.map Prod.fst then some (g k) else alistGet acc k := by
  intro l
  induction l with
  | nil => intro acc k; simp
  | cons p rest ih =>
    intro acc k
    simp only [List.foldl_cons, List.map_cons, List.mem_cons]
    rw [ih]
    by_cases hmem : k ∈ rest.map Prod.fst
    · simp [hmem]
    · simp only [hmem, if_false, or_false]
      rw [alistGet_alistSet]
      by_cases hk : p.1 = k
      · simp [hk]
      · have hk' : (p.1 == k) = false := by simpa using hk
        simp [hk', Ne.symm hk]

/-! ## Properties of `mergeChain` and the inheritance chains -/

theorem mergeChain_append (l : List String) :
    ∀ chain : List String, ∃ s, mergeChain chain l = chain ++ s := by
  induction l with
  | nil =>
    intro chain
    refine ⟨[], ?_⟩
    simp [mergeChain]
  | cons n rest ih =>
    intro chain
    unfold mergeChain
    simp only [List.foldl_cons]
    by_cases hc : chain.contains n = true
    · rw [if_pos hc]
      exact ih chain
    · rw [if_neg hc]
      obtain ⟨s, hs⟩ := ih (chain ++ [n])
      refine ⟨[n] ++ s, ?_⟩
      rw [show chain ++ ([n] ++ s) = (chain ++ [n]) ++ s from
        (List.append_assoc chain [n] s).symm]
      exact hs

theorem mergeChain_nodup (l : List String) :
    ∀ chain : List String, chain.Nodup → (mergeChain chain l).Nodup := by
  induction l with
  | nil =>
    intro chain h
    simpa [mergeChain] using h
  | cons n rest ih =>
    intro chain h
    unfold mergeChain
    simp only [List.foldl_cons]
    by_cases hc : chain.contains n = true
    · rw [if_pos hc]
      exact ih chain h
    · rw [if_neg hc]
      have hn : n ∉ chain := by
        intro hmem
        exact hc (by simpa using hmem)
      have hnd : (chain ++ [n]).Nodup := by
        rw [List.nodup_append]
        exact ⟨h, List.nodup_singleton n, by simpa using hn⟩
      exact ih (chain ++ [n]) hnd

theorem foldl_mergeChain_append {β : Type} (g : β → List String) :
    ∀ (bases : List β) (chain : List String),
      ∃ s, bases.foldl (fun ch b => mergeChain ch (g b)) chain = chain ++ s := by
  intro bases
  induction bases with
  | nil => intro chain; exact ⟨[], by simp⟩
  | cons b rest ih =>
    intro chain
    simp only [List.foldl_cons]
    obtain ⟨s₁, hs₁⟩ := mergeChain_append (g b) chain
    obtain ⟨s₂, hs₂⟩ := ih (mergeChain chain (g b))
    exact ⟨s₁ ++ s₂, by rw [hs₂, hs₁, List.append_assoc]⟩

theorem foldl_mergeChain_nodup {β : Type} (g : β → List String) :
    ∀ (bases : List β) (chain : List String), chain.Nodup →
      (bases.foldl (fun ch b => mergeChain ch (g b)) chain).Nodup := by
  intro bases
  induction bases with
  | nil => intro chain h; simpa using h
  | cons b rest ih =>
    intro chain h
    simp only [List.foldl_cons]
    exact ih _ (mergeChain_nodup (g b) chain h)

theorem chainFuel_nodup (fuel : Nat) (cmap : AList ContractInfo)
    (name : String) (visited : List String) :
    (chainFuel fuel cmap name visited).Nodup := by
  cases fuel with
  | zero => simp [chainFuel]
  | succ n =>
    rw [chainFuel]
    by_cases hv : visited.contains name = true
    · rw [if_pos hv]
      exact List.nodup_nil
    · rw [if_neg hv]
      cases hget : alistGet cmap name with
      | none => exact List.nodup_singleton name
      | some contract =>
        simp only
        exact foldl_mergeChain_nodup _ _ _ (List.nodup_singleton name)

theorem chainFuel_cons (fuel : Nat) (cmap : AList ContractInfo)
    (name : String) (visited : List String)
    (hfuel : 0 < fuel) (hv : visited.contains name = false) :
    ∃ s, chainFuel fuel cmap name visited = name :: s := by
  cases fuel with
  | zero => omega
  | succ n =>
    rw [chainFuel]
    rw [if_neg (by rw [hv]; simp)]
    cases hget : alistGet cmap name with
    | none => exact ⟨[], rfl⟩
    | some contract =>
      simp only
      obtain ⟨s, hs⟩ := foldl_mergeChain_append
        (fun b => chainFuel n cmap b (name :: visited)) contract.baseContracts [name]
      refine ⟨s, ?_⟩
      rw [hs]
      rfl

theorem computeInheritanceChain_nodup (cmap : AList ContractInfo)
    (name : String) (visited : List String) :
    (computeInheritanceChain cmap name visited).Nodup := by
  rw [computeInheritanceChain_eq_chainFuel (unvisitedKeys cmap visited + 1) cmap name
    visited (Nat.lt_succ_self _)]
  exact chainFuel_nodup _ _ _ _

theorem computeInheritanceChain_cons (cmap : AList ContractInfo)
    (name : String) (visited : List String) (hv : visited.contains name = false) :
    ∃ s, computeInheritanceChain cmap name visited = name :: s := by
  rw [computeInheritanceChain_eq_chainFuel (unvisitedKeys cmap visited + 1) cmap name
    visited (Nat.lt_succ_self _)]
  exact chainFuel_cons _ _ _ _ (Nat.succ_pos _) hv

/-- Lookup characterization of the chain map built by `pass3`. -/
theorem alistGet_pass3 (cmap : AList ContractInfo) (k : String) :
    alistGet (pass3 cmap) k =
      if k ∈ cmap.map Prod.fst then some (computeInheritanceChain cmap k [])
      else none := by
  unfold pass3
  rw [alistGet_foldl_set (fun k => computeInheritanceChain cmap k []) cmap [] k]
  rfl

/-! ## Concrete workspaces used as witnesses and counterexamples -/

/-- A workspace with a cyclic base declaration: `A` declares `B` as a base and
`B` declares `A` as a base. -/
def wsCyc : Workspace :=
  [("Cyc.sol",
    ⟨[{ name := "A", baseContracts := ["B"] },
      { name := "B", baseContracts := ["A"] }]⟩)]

/-- The `inheritedBy` map that `buildInheritanceGraph` computes on `wsCyc`. -/
def cycInhB : AList (List String) := [("B", ["A"]), ("A", ["B"])]

theorem collect_cyc_none :
    ∀ fuel : Nat,
      (∀ res, collectInheritors cycInhB fuel "A" res = none) ∧
      (∀ res, collectInheritors cycInhB fuel "B" res = none) := by
  intro fuel
  induction fuel with
  | zero => exact ⟨fun _ => rfl, fun _ => rfl⟩
  | succ n ih =>
    constructor
    · intro res
      have h : collectInheritors cycInhB (n + 1) "A" res =
          collectInheritors cycInhB n "B" (addUnique res "B") := rfl
      rw [h]
      exact ih.2 _
    · intro res
      have h : collectInheritors cycInhB (n + 1) "B" res =
          collectInheritors cycInhB n "A" (addUnique res "A") := rfl
      rw [h]
      exact ih.1 _

/-- Claim C2 (refuted — code bug in the source): on a workspace whose declared
base-contract relation is cyclic, `getImplementingContracts` does **not**
terminate with a collection.  `collectInheritors` recurses on every inheritor
with no visited guard, so on `wsCyc` the recursion exceeds every finite stack
depth: the fuel-indexed embedding returns `none` for every fuel. -/
theorem C2_cyclic_getImplementingContracts_diverges :
    ∀ fuel : Nat,
      getImplementingContracts (buildInheritanceGraph wsCyc) fuel "A" = none := by
  intro fuel
  have hinh : (buildInheritanceGraph wsCyc).inheritedBy = cycInhB := rfl
  unfold getImplementingContracts
  rw [hinh]
  exact (collect_cyc_none fuel).1 []

/-- Claim C3: after `buildInheritanceGraph`, the computed inheritance chain of
every type `T` present in the contract map contains `T` exactly once, and `T`
is its first element (position 0). -/
theorem C3_chain_contains_self_once_at_head
    (ws : Workspace) (T : String) (c : ContractInfo) (ch : List String)
    (hc : alistGet (buildInheritanceGraph ws).contractMap T = some c)
    (hch : alistGet (buildInheritanceGraph ws).inheritanceChains T = some ch) :
    ch.head? = some T ∧ ch.count T = 1 := by
  have hchains : (buildInheritanceGraph ws).inheritanceChains =
      pass3 (buildInheritanceGraph ws).contractMap := rfl
  rw [hchains, alistGet_pass3] at hch
  rw [if_pos (alistGet_some_mem_keys hc)] at hch
  obtain ⟨s, hcons⟩ :=
    computeInheritanceChain_cons (buildInheritanceGraph ws).contractMap T [] rfl
  have hnd := computeInheritanceChain_nodup (buildInheritanceGraph ws).contractMap T []
  have hch' : ch = T :: s := by
    have h := Option.some_injective _ hch
    rw [← h, hcons]
  rw [hcons] at hnd
  have hTs : T ∉ s := (List.nodup_cons.mp hnd).1
  subst hch'
  refine ⟨rfl, ?_⟩
  rw [List.count_cons_self, List.count_eq_zero.mpr hTs]

/-- Witness for C3 at a concrete workspace: type `A` of `wsCyc` has chain
`["A", "B"]`, which contains `"A"` exactly once, at position 0. -/
theorem C3_chain_contains_self_once_at_head_witness :
    alistGet (buildInheritanceGraph wsCyc).contractMap "A" =
        some { name := "A", baseContracts := ["B"] } ∧
    alistGet (buildInheritanceGraph wsCyc).inheritanceChains "A" = some ["A", "B"] ∧
    ((["A", "B"] : List String).head? = some "A" ∧
      (["A", "B"] : List String).count "A" = 1) := by
  have h1 : alistGet (buildInheritanceGraph wsCyc).contractMap "A" =
      some { name := "A", baseContracts := ["B"] } := rfl
  have h2 : alistGet (buildInheritanceGraph wsCyc).inheritanceChains "A" =
      some ["A", "B"] := by
    rw [buildInheritanceGraph_eq_exec]
    rfl
  exact ⟨h1, h2, C3_chain_contains_self_once_at_head wsCyc "A" _ ["A", "B"] h1 h2⟩

/-- Claim C4: for every workspace with a cyclic base declaration between `A`
and `B`, `buildInheritanceGraph` terminates (the embedding is total) and the
computed chains of `A` and `B` are finite lists with no repeated element. -/
theorem C4_cyclic_chains_finite_nodup
    (ws : Workspace) (A B : String) (cA cB : ContractInfo)
    (hA : alistGet (buildInheritanceGraph ws).contractMap A = some cA)
    (hB : alistGet (buildInheritanceGraph ws).contractMap B = some cB)
    (_hAB : B ∈ cA.baseContracts) (_hBA : A ∈ cB.baseContracts) :
    ∃ chA chB,
      alistGet (buildInheritanceGraph ws).inheritanceChains A = some chA ∧
      alistGet (buildInheritanceGraph ws).inheritanceChains B = some chB ∧
      chA.Nodup ∧ chB.Nodup := by
  have hchains : (buildInheritanceGraph ws).inheritanceChains =
      pass3 (buildInheritanceGraph ws).contractMap := rfl
  refine ⟨computeInheritanceChain (buildInheritanceGraph ws).contractMap A [],
          computeInheritanceChain (buildInheritanceGraph ws).contractMap B [], ?_, ?_, ?_, ?_⟩
  · rw [hchains, alistGet_pass3, if_pos (alistGet_some_mem_keys hA)]
  · rw [hchains, alistGet_pass3, if_pos (alistGet_some_mem_keys hB)]
  · exact computeInheritanceChain_nodup _ _ _
  · exact computeInheritanceChain_nodup _ _ _

/-- Witness for C4 at the concrete cyclic workspace `wsCyc`. -/
theorem C4_cyclic_chains_finite_nodup_witness :
    alistGet (buildInheritanceGraph wsCyc).contractMap "A" =
        some { name := "A", baseContracts := ["B"] } ∧
    alistGet (buildInheritanceGraph wsCyc).contractMap "B" =
        some { name := "B", baseContracts := ["A"] } ∧
    ("B" ∈ ["B"] ∧ "A" ∈ ["A"]) ∧
    (∃ chA chB,
      alistGet (buildInheritanceGraph wsCyc).inheritanceChains "A" = some chA ∧
      alistGet (buildInheritanceGraph wsCyc).inheritanceChains "B" = some chB ∧
      chA.Nodup ∧ chB.Nodup) := by
  have h1 : alistGet (buildInheritanceGraph wsCyc).contractMap "A" =
      some { name := "A", baseContracts := ["B"] } := rfl
  have h2 : alistGet (buildInheritanceGraph wsCyc).contractMap "B" =
      some { name := "B", baseContracts := ["A"] } := rfl
  exact ⟨h1, h2, ⟨by simp, by simp⟩,
    C4_cyclic_chains_finite_nodup wsCyc "A" "B" _ _ h1 h2 (by simp) (by simp)⟩

/-! ## C5: soundness of `findImplementations` results -/

theorem findMethodInChain_sound (r : Resolver) (fullChain : List String)
    (cn mn : String) :
    ∀ chain impl, findMethodInChain r fullChain cn mn chain = some impl →
      impl.contractKind ≠ ContractKind.interface ∧
      jsTrim impl.functionInfo.body ≠ "" := by
  intro chain
  induction chain with
  | nil =>
    intro impl h
    simp [findMethodInChain] at h
  | cons name rest ih =>
    intro impl h
    simp only [findMethodInChain] at h
    split at h
    · exact ih impl h
    · split at h
      · exact ih impl h
      · split at h
        · exact ih impl h
        · split at h
          · injection h with h'
            subst h'
            constructor
            · assumption
            · assumption
          · exact ih impl h

theorem findImplementations_mem_sound (r : Resolver) (fuel : Nat)
    (interfaceName methodName : String) (impls : List ImplementationInfo)
    (impl : ImplementationInfo)
    (h : findImplementations r fuel interfaceName methodName = some impls)
    (hmem : impl ∈ impls) :
    impl.contractKind ≠ ContractKind.interface ∧
    jsTrim impl.functionInfo.body ≠ "" := by
  unfold findImplementations at h
  cases hg : getImplementingContracts r fuel interfaceName with
  | none => rw [hg] at h; simp at h
  | some names =>
    rw [hg] at h
    injection h with h
    subst h
    obtain ⟨name, _, hsome⟩ := List.mem_filterMap.mp hmem
    split at hsome
    · simp at hsome
    · split at hsome
      · simp at hsome
      · exact findMethodInChain_sound r _ name methodName _ impl hsome

/-- Claim C5: every result of `findImplementations` refers to a type whose
kind is not Interface and to a function whose body is non-empty after
trimming whitespace. -/
theorem C5_findImplementations_non_interface_nonempty_body
    (ws : Workspace) (fuel : Nat) (interfaceName methodName : String)
    (impls : List ImplementationInfo) (impl : ImplementationInfo)
    (h : findImplementations (buildInheritanceGraph ws) fuel interfaceName
          methodName = some impls)
    (hmem : impl ∈ impls) :
    impl.contractKind ≠ ContractKind.interface ∧
    jsTrim impl.functionInfo.body ≠ "" :=
  findImplementations_mem_sound _ _ _ _ _ _ h hmem

/-- A workspace with an interface method and one concrete implementer. -/
def wsC5 : Workspace :=
  [("V.sol",
    ⟨[{ name := "IVault", kind := ContractKind.interface,
        functions := [{ name := "withdraw" }] },
      { name := "Vault", baseContracts := ["IVault"],
        functions := [{ name := "withdraw", body := "balance -= 1;" }] }]⟩)]

/-- The single implementation found on `wsC5`. -/
def implC5 : ImplementationInfo :=
  { contractName := "Vault"
    contractKind := ContractKind.contract
    functionInfo := { name := "withdraw", body := "balance -= 1;" }
    filePath := ""
    isInherited := false
    inheritanceChain := ["Vault", "IVault"] }

/-- Witness for C5 at the concrete workspace `wsC5`. -/
theorem C5_findImplementations_non_interface_nonempty_body_witness :
    findImplementations (buildInheritanceGraph wsC5) 5 "IVault" "withdraw" =
        some [implC5] ∧
    implC5 ∈ [implC5] ∧
    (implC5.contractKind ≠ ContractKind.interface ∧
      jsTrim implC5.functionInfo.body ≠ "") := by
  have h : findImplementations (buildInheritanceGraph wsC5) 5 "IVault" "withdraw" =
      some [implC5] := by
    rw [buildInheritanceGraph_eq_exec]
    decide
  exact ⟨h, List.mem_singleton.mpr rfl,
    C5_findImplementations_non_interface_nonempty_body wsC5 5 "IVault" "withdraw"
      [implC5] implC5 h (List.mem_singleton.mpr rfl)⟩

/-! ## C6: `findLibraryMethods` candidate assembly and result soundness -/

theorem addMissing_decomp (libs : List String) :
    ∀ acc, ∃ new, addMissing acc libs = acc ++ new ∧ new.Nodup ∧
      ∀ x ∈ new, x ∉ acc ∧ x ∈ libs := by
  induction libs with
  | nil =>
    intro acc
    refine ⟨[], by simp [addMissing], List.nodup_nil, by simp⟩
  | cons lib libs ih =>
    intro acc
    unfold addMissing
    simp only [List.foldl_cons]
    by_cases hc : acc.contains lib = true
    · rw [if_pos hc]
      obtain ⟨new, h1, h2, h3⟩ := ih acc
      refine ⟨new, h1, h2, ?_⟩
      intro x hx
      obtain ⟨ha, hl⟩ := h3 x hx
      exact ⟨ha, List.mem_cons_of_mem _ hl⟩
    · rw [if_neg hc]
      obtain ⟨new, h1, h2, h3⟩ := ih (acc ++ [lib])
      have hlib : lib ∉ acc := fun hm => hc (by simpa using hm)
      refine ⟨lib :: new, ?_, ?_, ?_⟩
      · rw [show acc ++ lib :: new = (acc ++ [lib]) ++ new by simp]
        exact h1
      · rw [List.nodup_cons]
        exact ⟨fun hm => ((h3 lib hm).1) (by simp), h2⟩
      · intro x hx
        rcases List.mem_cons.mp hx with rfl | hx'
        · exact ⟨hlib, by simp⟩
        · obtain ⟨ha, hl⟩ := h3 x hx'
          exact ⟨fun hm => ha (List.mem_append_left _ hm),
            List.mem_cons_of_mem _ hl⟩

theorem libraryCandidate_sound (r : Resolver) (methodName libraryName : String)
    (impl : ImplementationInfo)
    (h : libraryCandidate r methodName libraryName = some impl) :
    impl.contractKind = ContractKind.library ∧
    impl.functionInfo.name = methodName ∧
    jsTrim impl.functionInfo.body ≠ "" := by
  unfold libraryCandidate at h
  split at h
  · simp at h
  · split at h
    · simp at h
    · split at h
      · simp at h
      · split at h
        · injection h with h'
          subst h'
          refine ⟨rfl, ?_, by assumption⟩
          rename_i library _ func hfind _
          have := List.find?_some hfind
          simpa using this
        · simp at h

/-- Claim C6, amended: the candidate list is the context-directive matches
(which are **not** deduplicated) followed by the global map entry and then the
wildcard entry, each of those two appended only when not already present (so
only they are duplicate-free); and every returned result is of kind Library
with a non-empty-body function named `methodName`. -/
theorem C6_findLibraryMethods_priority_and_soundness
    (r : Resolver) (typeName methodName : String) (ctx : Option String) :
    (∃ gNew wNew,
        librariesToSearch r typeName ctx =
          contextLibraries r typeName ctx ++ gNew ++ wNew ∧
        (gNew ++ wNew).Nodup ∧
        (∀ x ∈ gNew, x ∉ contextLibraries r typeName ctx ∧
            x ∈ (alistGet r.typeToLibraries typeName).getD []) ∧
        (∀ x ∈ wNew, x ∉ contextLibraries r typeName ctx ++ gNew ∧
            x ∈ (alistGet r.typeToLibraries "*").getD [])) ∧
    ∀ impl ∈ findLibraryMethods r typeName methodName ctx,
      impl.contractKind = ContractKind.library ∧
      impl.functionInfo.name = methodName ∧
      jsTrim impl.functionInfo.body ≠ "" := by
  constructor
  · obtain ⟨gNew, hg1, hg2, hg3⟩ :=
      addMissing_decomp ((alistGet r.typeToLibraries typeName).getD [])
        (contextLibraries r typeName ctx)
    obtain ⟨wNew, hw1, hw2, hw3⟩ :=
      addMissing_decomp ((alistGet r.typeToLibraries "*").getD [])
        (addMissing (contextLibraries r typeName ctx)
          ((alistGet r.typeToLibraries typeName).getD []))
    refine ⟨gNew, wNew, ?_, ?_, ?_, ?_⟩
    · unfold librariesToSearch
      rw [hw1, hg1, List.append_assoc]
    · rw [List.nodup_append]
      refine ⟨hg2, hw2, ?_⟩
      intro x hx hx'
      exact ((hw3 x hx').1) (by rw [hg1]; exact List.mem_append_right _ hx)
    · intro x hx
      exact hg3 x hx
    · intro x hx
      obtain ⟨ha, hl⟩ := hw3 x hx
      rw [hg1] at ha
      exact ⟨ha, hl⟩
  · intro impl hmem
    obtain ⟨lib, _, hsome⟩ := List.mem_filterMap.mp hmem
    exact libraryCandidate_sound r methodName lib impl hsome

/-- A workspace whose context contract names library `L` in two matching
directives (`using L for T` and `using L for *`). -/
def wsC6 : Workspace :=
  [("L.sol",
    ⟨[{ name := "C",
        usingDirectives := [{ libraryName := "L", forType := "T" },
                            { libraryName := "L", forType := "*" }] },
      { name := "L", kind := ContractKind.library,
        functions := [{ name := "m", body := "x" }] }]⟩)]

/-- Counterexample to C6 as stated: on `wsC6` the library `L` appears twice in
`findLibraryMethods`'s result (the context-directive candidates are not
deduplicated), refuting "no library name appears more than once in the
candidate list … no library appears twice in the result". -/
theorem C6_counterexample_duplicate_library :
    ¬ ((findLibraryMethods (buildInheritanceGraph wsC6) "T" "m" (some "C")).map
        (fun i => i.contractName)).Nodup := by
  rw [buildInheritanceGraph_eq_exec]
  decide

/-- The library implementation record returned (twice) on `wsC6`. -/
def implC6 : ImplementationInfo :=
  { contractName := "L"
    contractKind := ContractKind.library
    functionInfo := { name := "m", body := "x" }
    filePath := ""
    isInherited := false
    inheritanceChain := ["L"] }

/-- Witness for the amended C6 at the concrete workspace `wsC6`. -/
theorem C6_findLibraryMethods_priority_and_soundness_witness :
    implC6 ∈ findLibraryMethods (buildInheritanceGraph wsC6) "T" "m" (some "C") ∧
    (implC6.contractKind = ContractKind.library ∧
      implC6.functionInfo.name = "m" ∧
      jsTrim implC6.functionInfo.body ≠ "") := by
  have hmem : implC6 ∈ findLibraryMethods (buildInheritanceGraph wsC6) "T" "m"
      (some "C") := by
    rw [buildInheritanceGraph_eq_exec]
    decide
  exact ⟨hmem,
    (C6_findLibraryMethods_priority_and_soundness (buildInheritanceGraph wsC6)
      "T" "m" (some "C")).2 implC6 hmem⟩

/-! ## C1: widening a context type's using-directives

`widenWorkspace ws ctx extra` is the workspace in which the contract named
`ctx` keeps everything unchanged except that its using-directive list is
extended with the additional directives `extra` — the "superset of the
context type's using-directives, all else unchanged" of the claim. -/

/-- Extend `ctx`'s directive list with `extra`; other contracts unchanged. -/
def widenContract (ctx : String) (extra : List UsingDirective)
    (c : ContractInfo) : ContractInfo :=
  if c.name == ctx then { c with usingDirectives := c.usingDirectives ++ extra }
  else c

/-- Apply `widenContract` to every contract of the snapshot. -/
def widenWorkspace (ws : Workspace) (ctx : String) (extra : List UsingDirective) :
    Workspace :=
  ws.map (fun file => (file.1, ⟨file.2.contracts.map (widenContract ctx extra)⟩))

theorem widenContract_name (ctx : String) (extra : List UsingDirective)
    (c : ContractInfo) : (widenContract ctx extra c).name = c.name := by
  unfold widenContract; split <;> rfl

theorem widenContract_kind (ctx : String) (extra : List UsingDirective)
    (c : ContractInfo) : (widenContract ctx extra c).kind = c.kind := by
  unfold widenContract; split <;> rfl

theorem widenContract_baseContracts (ctx : String) (extra : List UsingDirective)
    (c : ContractInfo) :
    (widenContract ctx extra c).baseContracts = c.baseContracts := by
  unfold widenContract; split <;> rfl

theorem widenContract_functions (ctx : String) (extra : List UsingDirective)
    (c : ContractInfo) : (widenContract ctx extra c).functions = c.functions := by
  unfold widenContract; split <;> rfl

theorem widenContract_filePath (ctx : String) (extra : List UsingDirective)
    (c : ContractInfo) : (widenContract ctx extra c).filePath = c.filePath := by
  unfold widenContract; split <;> rfl

/-- All contracts of the snapshot, in build iteration order. -/
def allContracts (ws : Workspace) : List ContractInfo :=
  (ws.map (fun file => file.2.contracts)).flatten

theorem allContracts_widen (ws : Workspace) (ctx : String)
    (extra : List UsingDirective) :
    allContracts (widenWorkspace ws ctx extra) =
      (allContracts ws).map (widenContract ctx extra) := by
  unfold allContracts widenWorkspace
  rw [List.map_map, List.map_flatten, List.map_map]
  rfl

/-! ### Splitting `pass1` into its three independent folds -/

theorem pass1Step_fst (st : AList ContractInfo × AList (List String) ×
    AList (List UsingDirective)) (c : ContractInfo) :
    (pass1Step st c).1 = alistSet st.1 c.name c := by
  simp only [pass1Step]
  split <;> rfl

theorem pass1Step_snd1 (st : AList ContractInfo × AList (List String) ×
    AList (List UsingDirective)) (c : ContractInfo) :
    (pass1Step st c).2.1 = c.usingDirectives.foldl registerDirective st.2.1 := by
  simp only [pass1Step]
  split
  · rename_i hempty
    rw [List.isEmpty_iff.mp hempty]
    rfl
  · rfl

theorem pass1Step_snd2 (st : AList ContractInfo × AList (List String) ×
    AList (List UsingDirective)) (c : ContractInfo) :
    (pass1Step st c).2.2 =
      if c.usingDirectives.isEmpty then st.2.2
      else alistSet st.2.2 c.name c.usingDirectives := by
  simp only [pass1Step]
  split <;> simp_all

theorem pass1_eq_allContracts (ws : Workspace) :
    pass1 ws = (allContracts ws).foldl pass1Step ([], [], []) := by
  unfold pass1 allContracts
  rw [List.foldl_flatten, List.foldl_map]

/-- The contract map as a single fold over the contract list. -/
def cmapFold (l : List ContractInfo) (acc : AList ContractInfo) :
    AList ContractInfo :=
  l.foldl (fun m c => alistSet m c.name c) acc

/-- The type→libraries map as a single fold over the contract list. -/
def t2lFold (l : List ContractInfo) (acc : AList (List String)) :
    AList (List String) :=
  l.foldl (fun t2l c => c.usingDirectives.foldl registerDirective t2l) acc

/-- The contract→directives map as a single fold over the contract list. -/
def cudFold (l : List ContractInfo) (acc : AList (List UsingDirective)) :
    AList (List UsingDirective) :=
  l.foldl
    (fun cud c =>
      if c.usingDirectives.isEmpty then cud
      else alistSet cud c.name c.usingDirectives)
    acc

theorem pass1_foldl_fst (l : List ContractInfo) :
    ∀ st, (l.foldl pass1Step st).1 = cmapFold l st.1 := by
  induction l with
  | nil => intro st; rfl
  | cons c rest ih =>
    intro st
    simp only [List.foldl_cons]
    rw [ih, pass1Step_fst]
    rfl

theorem pass1_foldl_snd1 (l : List ContractInfo) :
    ∀ st, (l.foldl pass1Step st).2.1 = t2lFold l st.2.1 := by
  induction l with
  | nil => intro st; rfl
  | cons c rest ih =>
    intro st
    simp only [List.foldl_cons]
    rw [ih, pass1Step_snd1]
    rfl

theorem pass1_foldl_snd2 (l : List ContractInfo) :
    ∀ st, (l.foldl pass1Step st).2.2 = cudFold l st.2.2 := by
  induction l with
  | nil => intro st; rfl
  | cons c rest ih =>
    intro st
    simp only [List.foldl_cons]
    rw [ih, pass1Step_snd2]
    rfl

theorem build_contractMap (ws : Workspace) :
    (buildInheritanceGraph ws).contractMap = cmapFold (allContracts ws) [] := by
  show (pass1 ws).1 = _
  rw [pass1_eq_allContracts, pass1_foldl_fst]

theorem build_typeToLibraries (ws : Workspace) :
    (buildInheritanceGraph ws).typeToLibraries = t2lFold (allContracts ws) [] := by
  show (pass1 ws).2.1 = _
  rw [pass1_eq_allContracts, pass1_foldl_snd1]

theorem build_contractUsingDirectives (ws : Workspace) :
    (buildInheritanceGraph ws).contractUsingDirectives =
      cudFold (allContracts ws) [] := by
  show (pass1 ws).2.2 = _
  rw [pass1_eq_allContracts, pass1_foldl_snd2]

theorem build_inheritedBy (ws : Workspace) :
    (buildInheritanceGraph ws).inheritedBy =
      pass2 (cmapFold (allContracts ws) []) := by
  show pass2 (pass1 ws).1 = _
  rw [pass1_eq_allContracts, pass1_foldl_fst]

theorem build_inheritanceChains (ws : Workspace) :
    (buildInheritanceGraph ws).inheritanceChains =
      pass3 (cmapFold (allContracts ws) []) := by
  show pass3 (pass1 ws).1 = _
  rw [pass1_eq_allContracts, pass1_foldl_fst]

/-! ### Transport along the key-preserving map `widenContract` -/

theorem alistGet_map_snd {α β : Type} (g : α → β) (m : AList α) (k : String) :
    alistGet (m.map (fun p => (p.1, g p.2))) k = (alistGet m k).map g := by
  induction m with
  | nil => rfl
  | cons p rest ih =>
    obtain ⟨k₀, v₀⟩ := p
    by_cases h0 : (k₀ == k) = true
    · simp [alistGet, h0]
    · have h0' : (k₀ == k) = false := by simpa using h0
      simp [alistGet, h0', ih]

theorem alistSet_map_snd {α β : Type} (g : α → β) (m : AList α) (k : String)
    (v : α) :
    alistSet (m.map (fun p => (p.1, g p.2))) k (g v) =
      (alistSet m k v).map (fun p => (p.1, g p.2)) := by
  induction m with
  | nil => rfl
  | cons p rest ih =>
    obtain ⟨k₀, v₀⟩ := p
    by_cases h0 : (k₀ == k) = true
    · simp [alistSet, h0]
    · have h0' : (k₀ == k) = false := by simpa using h0
      simp [alistSet, h0', ih]

theorem cmapFold_map (ctx : String) (extra : List UsingDirective) :
    ∀ (l : List ContractInfo) (m : AList ContractInfo),
      cmapFold (l.map (widenContract ctx extra))
          (m.map (fun p => (p.1, widenContract ctx extra p.2))) =
        (cmapFold l m).map (fun p => (p.1, widenContract ctx extra p.2)) := by
  intro l
  induction l with
  | nil => intro m; rfl
  | cons c rest ih =>
    intro m
    unfold cmapFold
    simp only [List.map_cons, List.foldl_cons]
    rw [widenContract_name, alistSet_map_snd (widenContract ctx extra) m c.name c]
    exact ih (alistSet m c.name c)

theorem cmapOf_widen (ws : Workspace) (ctx : String)
    (extra : List UsingDirective) :
    cmapFold (allContracts (widenWorkspace ws ctx extra)) [] =
      (cmapFold (allContracts ws) []).map
        (fun p => (p.1, widenContract ctx extra p.2)) := by
  rw [allContracts_widen]
  have h := cmapFold_map ctx extra (allContracts ws) []
  simpa using h

theorem unvisitedKeys_map_snd {α β : Type} (g : α → β) (m : AList α)
    (visited : List String) :
    unvisitedKeys (m.map (fun p => (p.1, g p.2))) visited =
      unvisitedKeys m visited := by
  induction m with
  | nil => rfl
  | cons p rest ih =>
    unfold unvisitedKeys at *
    simp only [List.map_cons, List.filter_cons]
    cases hc : (!visited.contains p.1) with
    | true => simp only [hc, if_true, List.length_cons, ih]
    | false => simp only [hc, Bool.false_eq_true, if_false, ih]

theorem chainFuel_map (ctx : String) (extra : List UsingDirective) :
    ∀ (fuel : Nat) (m : AList ContractInfo) (name : String)
      (visited : List String),
      chainFuel fuel (m.map (fun p => (p.1, widenContract ctx extra p.2)))
          name visited =
        chainFuel fuel m name visited := by
  intro fuel
  induction fuel with
  | zero => intro m name visited; rfl
  | succ n ih =>
    intro m name visited
    rw [chainFuel, chainFuel]
    by_cases hv : visited.contains name = true
    · rw [if_pos hv, if_pos hv]
    · rw [if_neg hv, if_neg hv]
      rw [alistGet_map_snd]
      cases hget : alistGet m name with
      | none => rfl
      | some contract =>
        simp only [Option.map_some']
        rw [widenContract_baseContracts]
        apply List.foldl_ext
        intro chain baseName _
        rw [ih]

theorem computeInheritanceChain_map (ctx : String) (extra : List UsingDirective)
    (m : AList ContractInfo) (name : String) (visited : List String) :
    computeInheritanceChain (m.map (fun p => (p.1, widenContract ctx extra p.2)))
        name visited =
      computeInheritanceChain m name visited := by
  rw [computeInheritanceChain_eq_chainFuel (unvisitedKeys m visited + 1) _ name
    visited (by rw [unvisitedKeys_map_snd]; omega)]
  rw [computeInheritanceChain_eq_chainFuel (unvisitedKeys m visited + 1) m name
    visited (Nat.lt_succ_self _)]
  exact chainFuel_map ctx extra _ m name visited

theorem pass2_map (ctx : String) (extra : List UsingDirective)
    (m : AList ContractInfo) :
    pass2 (m.map (fun p => (p.1, widenContract ctx extra p.2))) = pass2 m := by
  unfold pass2
  rw [List.foldl_map]
  apply List.foldl_ext
  intro inhB p _
  rw [widenContract_baseContracts]

theorem pass3_map (ctx : String) (extra : List UsingDirective)
    (m : AList ContractInfo) :
    pass3 (m.map (fun p => (p.1, widenContract ctx extra p.2))) = pass3 m := by
  unfold pass3
  rw [List.foldl_map]
  apply List.foldl_ext
  intro chains p _
  rw [computeInheritanceChain_map]

/-! ### Queries are invariant (or pointwise equal) under the widening -/

theorem findMethodInChain_congr (r₀ r₁ : Resolver) (ctx : String)
    (extra : List UsingDirective)
    (hcm : r₁.contractMap =
      r₀.contractMap.map (fun p => (p.1, widenContract ctx extra p.2)))
    (fullChain : List String) (cn mn : String) :
    ∀ chain, findMethodInChain r₁ fullChain cn mn chain =
      findMethodInChain r₀ fullChain cn mn chain := by
  intro chain
  induction chain with
  | nil => rfl
  | cons name rest ih =>
    rw [findMethodInChain, findMethodInChain, hcm, alistGet_map_snd]
    cases hget : alistGet r₀.contractMap name with
    | none => exact ih
    | some contract =>
      simp only [Option.map_some']
      rw [widenContract_kind]
      by_cases hk : contract.kind = ContractKind.interface
      · simp only [if_pos hk]
        exact ih
      · simp only [if_neg hk]
        rw [widenContract_functions]
        cases hfind : contract.functions.find? (fun f => f.name == mn) with
        | none => exact ih
        | some func =>
          simp only
          rw [widenContract_filePath]
          by_cases ht : jsTrim func.body ≠ ""
          · simp only [if_pos ht]
          · simp only [if_neg ht]
            exact ih

theorem findMethodInContract_congr (r₀ r₁ : Resolver) (ctx : String)
    (extra : List UsingDirective)
    (hcm : r₁.contractMap =
      r₀.contractMap.map (fun p => (p.1, widenContract ctx extra p.2)))
    (hch : r₁.inheritanceChains = r₀.inheritanceChains)
    (cn mn : String) :
    findMethodInContract r₁ cn mn = findMethodInContract r₀ cn mn := by
  unfold findMethodInContract
  rw [hch]
  exact findMethodInChain_congr r₀ r₁ ctx extra hcm _ cn mn _

theorem findImplementations_congr (r₀ r₁ : Resolver) (ctx : String)
    (extra : List UsingDirective)
    (hcm : r₁.contractMap =
      r₀.contractMap.map (fun p => (p.1, widenContract ctx extra p.2)))
    (hinh : r₁.inheritedBy = r₀.inheritedBy)
    (hch : r₁.inheritanceChains = r₀.inheritanceChains)
    (fuel : Nat) (interfaceName methodName : String) :
    findImplementations r₁ fuel interfaceName methodName =
      findImplementations r₀ fuel interfaceName methodName := by
  unfold findImplementations getImplementingContracts
  rw [hinh]
  cases collectInheritors r₀.inheritedBy fuel interfaceName [] with
  | none => rfl
  | some names =>
    simp only [Option.map_some', Option.some_inj]
    apply List.filterMap_congr
    intro name _
    rw [hcm, alistGet_map_snd]
    cases hget : alistGet r₀.contractMap name with
    | none => rfl
    | some contract =>
      simp only [Option.map_some']
      rw [widenContract_kind]
      by_cases hk : contract.kind = ContractKind.interface
      · simp [hk]
      · simp only [if_neg hk]
        exact findMethodInContract_congr r₀ r₁ ctx extra hcm hch name methodName

theorem findContractsWithMethod_congr (r₀ r₁ : Resolver) (ctx : String)
    (extra : List UsingDirective)
    (hcm : r₁.contractMap =
      r₀.contractMap.map (fun p => (p.1, widenContract ctx extra p.2)))
    (hch : r₁.inheritanceChains = r₀.inheritanceChains)
    (methodName : String) :
    findContractsWithMethod r₁ methodName none =
      findContractsWithMethod r₀ methodName none := by
  unfold findContractsWithMethod
  rw [hcm, List.foldl_map]
  apply List.foldl_ext
  intro impls p _
  simp only [widenContract_kind, widenContract_functions, widenContract_filePath,
    hch]

/-! ### The type→libraries map only grows under the widening -/

/-- All using-directives of a contract list, in processing order. -/
def dirsOf (l : List ContractInfo) : List UsingDirective :=
  (l.map (fun c => c.usingDirectives)).flatten

theorem t2lFold_eq_dirs (l : List ContractInfo) (acc : AList (List String)) :
    t2lFold l acc = (dirsOf l).foldl registerDirective acc := by
  unfold t2lFold dirsOf
  rw [List.foldl_flatten, List.foldl_map]

theorem mem_registerDirective (t2l : AList (List String)) (d : UsingDirective)
    (t x : String) :
    x ∈ (alistGet (registerDirective t2l d) t).getD [] ↔
      x ∈ (alistGet t2l t).getD [] ∨ (d.forType = t ∧ d.libraryName = x) := by
  unfold registerDirective
  rw [alistGet_alistSet]
  by_cases hft : (d.forType == t) = true
  · have he : d.forType = t := by simpa using hft
    subst he
    rw [if_pos (by simp)]
    simp only [Option.getD_some]
    by_cases hc : ((alistGet t2l d.forType).getD []).contains d.libraryName = true
    · rw [if_pos hc]
      have hmem : d.libraryName ∈ (alistGet t2l d.forType).getD [] := by
        simpa using hc
      constructor
      · intro hx; exact Or.inl hx
      · rintro (hx | ⟨-, rfl⟩)
        · exact hx
        · exact hmem
    · rw [if_neg hc]
      rw [List.mem_append, List.mem_singleton]
      constructor
      · rintro (hx | rfl)
        · exact Or.inl hx
        · exact Or.inr ⟨by trivial, by trivial⟩
      · rintro (hx | ⟨-, rfl⟩)
        · exact Or.inl hx
        · exact Or.inr rfl
  · have hne : d.forType ≠ t := by simpa using hft
    rw [if_neg (by simpa using hne)]
    simp [hne]

theorem mem_registerFold (t x : String) :
    ∀ (ds : List UsingDirective) (acc : AList (List String)),
      x ∈ (alistGet (ds.foldl registerDirective acc) t).getD [] ↔
        x ∈ (alistGet acc t).getD [] ∨
          ∃ d ∈ ds, d.forType = t ∧ d.libraryName = x := by
  intro ds
  induction ds with
  | nil => intro acc; simp
  | cons d rest ih =>
    intro acc
    rw [List.foldl_cons, ih, mem_registerDirective]
    constructor
    · rintro ((hx | hd) | ⟨d', hd', hft, hlib⟩)
      · exact Or.inl hx
      · exact Or.inr ⟨d, List.mem_cons_self d rest, hd⟩
      · exact Or.inr ⟨d', List.mem_cons_of_mem d hd', hft, hlib⟩
    · rintro (hx | ⟨d', hd', hft, hlib⟩)
      · exact Or.inl (Or.inl hx)
      · rcases List.mem_cons.mp hd' with rfl | hd''
        · exact Or.inl (Or.inr ⟨hft, hlib⟩)
        · exact Or.inr ⟨d', hd'', hft, hlib⟩

theorem mem_t2lFold (l : List ContractInfo) (t x : String) :
    x ∈ (alistGet (t2lFold l []) t).getD [] ↔
      ∃ d ∈ dirsOf l, d.forType = t ∧ d.libraryName = x := by
  rw [t2lFold_eq_dirs, mem_registerFold]
  simp [alistGet]

theorem widenContract_usingDirectives_superset (ctx : String)
    (extra : List UsingDirective) (c : ContractInfo) (d : UsingDirective)
    (hd : d ∈ c.usingDirectives) :
    d ∈ (widenContract ctx extra c).usingDirectives := by
  unfold widenContract
  split
  · exact List.mem_append_left _ hd
  · exact hd

theorem dirsOf_widen_superset (ctx : String) (extra : List UsingDirective)
    (l : List ContractInfo) (d : UsingDirective) (hd : d ∈ dirsOf l) :
    d ∈ dirsOf (l.map (widenContract ctx extra)) := by
  unfold dirsOf at *
  rw [List.mem_flatten] at hd
  obtain ⟨sub, hsub, hdsub⟩ := hd
  rw [List.mem_map] at hsub
  obtain ⟨c, hc, rfl⟩ := hsub
  rw [List.mem_flatten]
  refine ⟨(widenContract ctx extra c).usingDirectives, ?_, ?_⟩
  · rw [List.map_map]
    exact List.mem_map_of_mem _ hc
  · exact widenContract_usingDirectives_superset ctx extra c d hdsub

theorem t2l_mem_mono (ws : Workspace) (ctx : String)
    (extra : List UsingDirective) (t x : String)
    (hx : x ∈ (alistGet (t2lFold (allContracts ws) []) t).getD []) :
    x ∈ (alistGet (t2lFold (allContracts (widenWorkspace ws ctx extra)) []) t).getD [] := by
  rw [mem_t2lFold] at hx ⊢
  obtain ⟨d, hd, hft, hlib⟩ := hx
  rw [allContracts_widen]
  exact ⟨d, dirsOf_widen_superset ctx extra _ d hd, hft, hlib⟩

/-! ### The context-directive matches grow by a suffix -/

/-- The library names of the directives matching `typeName` or the wildcard. -/
def ctxMatches (t : String) (ds : List UsingDirective) : List String :=
  (ds.filter (fun d => d.forType == t || d.forType == "*")).map
    (fun d => d.libraryName)

theorem ctxMatches_cons (t : String) (d : UsingDirective)
    (rest : List UsingDirective) :
    ctxMatches t (d :: rest) =
      if (d.forType == t || d.forType == "*") = true
      then d.libraryName :: ctxMatches t rest else ctxMatches t rest := by
  unfold ctxMatches
  rw [List.filter_cons]
  split
  · rw [List.map_cons]
  · rfl

theorem ctxMatches_foldl (t : String) :
    ∀ (ds : List UsingDirective) (acc : List String),
      ds.foldl
        (fun acc d =>
          if (d.forType == t || d.forType == "*") = true then
            acc ++ [d.libraryName]
          else acc)
        acc = acc ++ ctxMatches t ds := by
  intro ds
  induction ds with
  | nil => intro acc; simp [ctxMatches]
  | cons d rest ih =>
    intro acc
    rw [List.foldl_cons, ctxMatches_cons]
    by_cases hc : (d.forType == t || d.forType == "*") = true
    · rw [if_pos hc, if_pos hc, ih]
      simp
    · rw [if_neg hc, if_neg hc, ih]

theorem ctxMatches_append (t : String) (ds₁ ds₂ : List UsingDirective) :
    ctxMatches t (ds₁ ++ ds₂) = ctxMatches t ds₁ ++ ctxMatches t ds₂ := by
  unfold ctxMatches
  rw [List.filter_append, List.map_append]

theorem contextLibraries_eq_ctxMatches (r : Resolver) (t ctx : String) :
    contextLibraries r t (some ctx) =
      ctxMatches t ((alistGet r.contractUsingDirectives ctx).getD []) := by
  have hredex : contextLibraries r t (some ctx) =
      match alistGet r.contractUsingDirectives ctx with
      | none => []
      | some directives =>
        directives.foldl
          (fun acc d =>
            if (d.forType == t || d.forType == "*") = true then
              acc ++ [d.libraryName]
            else acc)
          [] := rfl
  rw [hredex]
  cases h : alistGet r.contractUsingDirectives ctx with
  | none => simp [ctxMatches]
  | some ds =>
    simp only [Option.getD_some]
    rw [ctxMatches_foldl]
    simp

theorem cudFold_get_ctxfree (ctx : String) :
    ∀ (l : List ContractInfo) (acc : AList (List UsingDirective)),
      (∀ c ∈ l, (c.name == ctx) = false) →
      alistGet (cudFold l acc) ctx = alistGet acc ctx := by
  intro l
  induction l with
  | nil => intro acc _; rfl
  | cons c rest ih =>
    intro acc hfree
    have hcons : cudFold (c :: rest) acc =
        cudFold rest
          (if c.usingDirectives.isEmpty then acc
           else alistSet acc c.name c.usingDirectives) := rfl
    have hstep : alistGet
        (if c.usingDirectives.isEmpty then acc
         else alistSet acc c.name c.usingDirectives) ctx = alistGet acc ctx := by
      split
      · rfl
      · rw [alistGet_alistSet, if_neg]
        rw [hfree c (List.mem_cons_self c rest)]
        simp
    rw [hcons, ih _ (fun c' hc' => hfree c' (List.mem_cons_of_mem c hc'))]
    exact hstep

theorem map_widen_ctxfree (ctx : String) (extra : List UsingDirective)
    (l : List ContractInfo) (hfree : ∀ c ∈ l, (c.name == ctx) = false) :
    l.map (widenContract ctx extra) = l := by
  have : ∀ c ∈ l, widenContract ctx extra c = c := by
    intro c hc
    unfold widenContract
    rw [hfree c hc]
    simp
  calc l.map (widenContract ctx extra) = l.map id := List.map_congr_left this
    _ = l := List.map_id l

theorem filter_singleton_decomp {α : Type} (p : α → Bool) :
    ∀ (l : List α) (c₀ : α), l.filter p = [c₀] →
      ∃ l₁ l₂, l = l₁ ++ c₀ :: l₂ ∧ (∀ x ∈ l₁, p x = false) ∧
        (∀ x ∈ l₂, p x = false) ∧ p c₀ = true := by
  intro l
  induction l with
  | nil => intro c₀ h; simp at h
  | cons a rest ih =>
    intro c₀ h
    cases hpa : p a with
    | true =>
      rw [List.filter_cons_of_pos hpa] at h
      injection h with h1 h2
      subst h1
      refine ⟨[], rest, by simp, by simp, ?_, hpa⟩
      intro x hx
      have := List.filter_eq_nil_iff.mp h2 x hx
      simpa using this
    | false =>
      rw [List.filter_cons_of_neg (by simp [hpa])] at h
      obtain ⟨l₁, l₂, hdecomp, hf₁, hf₂, hp₀⟩ := ih c₀ h
      refine ⟨a :: l₁, l₂, by rw [hdecomp]; rfl, ?_, hf₂, hp₀⟩
      intro x hx
      rcases List.mem_cons.mp hx with rfl | hx'
      · exact hpa
      · exact hf₁ x hx'

theorem contextLibraries_widen (ws : Workspace) (ctx : String)
    (extra : List UsingDirective) (t : String)
    (hUnique : ((allContracts ws).filter (fun c => c.name == ctx)).length ≤ 1) :
    ∃ E,
      contextLibraries (buildInheritanceGraph (widenWorkspace ws ctx extra)) t
          (some ctx) =
        contextLibraries (buildInheritanceGraph ws) t (some ctx) ++ E := by
  rw [contextLibraries_eq_ctxMatches, contextLibraries_eq_ctxMatches,
    build_contractUsingDirectives, build_contractUsingDirectives,
    allContracts_widen]
  have hlen : ((allContracts ws).filter (fun c => c.name == ctx)).length = 0 ∨
      ((allContracts ws).filter (fun c => c.name == ctx)).length = 1 := by omega
  rcases hlen with h0 | h1
  · have hnil : (allContracts ws).filter (fun c => c.name == ctx) = [] :=
      List.length_eq_zero.mp h0
    have hfree : ∀ c ∈ allContracts ws, (c.name == ctx) = false := by
      intro c hc
      have := List.filter_eq_nil_iff.mp hnil c hc
      simpa using this
    rw [map_widen_ctxfree ctx extra _ hfree]
    exact ⟨[], by simp⟩
  · obtain ⟨c₀, hc₀⟩ := List.length_eq_one.mp h1
    obtain ⟨l₁, l₂, hdecomp, hf₁, hf₂, hp₀⟩ :=
      filter_singleton_decomp _ (allContracts ws) c₀ hc₀
    rw [hdecomp]
    have hw₁ := map_widen_ctxfree ctx extra l₁ hf₁
    have hw₂ := map_widen_ctxfree ctx extra l₂ hf₂
    rw [List.map_append, List.map_cons, hw₁, hw₂]
    have hsplit : cudFold (l₁ ++ c₀ :: l₂) [] =
        cudFold l₂
          (if c₀.usingDirectives.isEmpty then cudFold l₁ []
           else alistSet (cudFold l₁ []) c₀.name c₀.usingDirectives) := by
      unfold cudFold
      rw [List.foldl_append, List.foldl_cons]
    have hget₀ : alistGet (cudFold (l₁ ++ c₀ :: l₂) []) ctx =
        if c₀.usingDirectives.isEmpty then none
        else some c₀.usingDirectives := by
      rw [hsplit, cudFold_get_ctxfree ctx l₂ _ hf₂]
      by_cases hud : c₀.usingDirectives.isEmpty = true
      · rw [if_pos hud, if_pos hud, cudFold_get_ctxfree ctx l₁ [] hf₁]
        rfl
      · rw [if_neg hud, if_neg hud, alistGet_alistSet, if_pos hp₀]
    have hwc₀ : widenContract ctx extra c₀ =
        { c₀ with usingDirectives := c₀.usingDirectives ++ extra } := by
      unfold widenContract
      rw [if_pos hp₀]
    have hsplit₁ : cudFold (l₁ ++ widenContract ctx extra c₀ :: l₂) [] =
        cudFold l₂
          (if (c₀.usingDirectives ++ extra).isEmpty then cudFold l₁ []
           else alistSet (cudFold l₁ []) c₀.name
             (c₀.usingDirectives ++ extra)) := by
      unfold cudFold
      rw [hwc₀, List.foldl_append, List.foldl_cons]
    have hget₁ : alistGet (cudFold (l₁ ++ widenContract ctx extra c₀ :: l₂) []) ctx =
        if (c₀.usingDirectives ++ extra).isEmpty then none
        else some (c₀.usingDirectives ++ extra) := by
      rw [hsplit₁, cudFold_get_ctxfree ctx l₂ _ hf₂]
      by_cases hud : (c₀.usingDirectives ++ extra).isEmpty = true
      · rw [if_pos hud, if_pos hud, cudFold_get_ctxfree ctx l₁ [] hf₁]
        rfl
      · rw [if_neg hud, if_neg hud, alistGet_alistSet, if_pos hp₀]
    rw [hget₀, hget₁]
    refine ⟨ctxMatches t extra, ?_⟩
    by_cases hud : c₀.usingDirectives.isEmpty = true
    · have hudnil : c₀.usingDirectives = [] := List.isEmpty_iff.mp hud
      rw [if_pos hud]
      by_cases hex : (c₀.usingDirectives ++ extra).isEmpty = true
      · rw [if_pos hex]
        have : extra = [] := by
          rw [hudnil] at hex
          simpa using List.isEmpty_iff.mp hex
        simp [ctxMatches, this]
      · rw [if_neg hex, hudnil]
        simp [ctxMatches]
    · rw [if_neg hud, if_neg (by
        intro hc
        exact hud (by
          have := List.isEmpty_iff.mp hc
          rw [List.append_eq_nil] at this
          exact List.isEmpty_iff.mpr this.1))]
      simp only [Option.getD_some]
      exact ctxMatches_append t c₀.usingDirectives extra

/-! ### Counting candidates in `librariesToSearch` -/

theorem count_addMissing (x : String) :
    ∀ (libs acc : List String),
      (addMissing acc libs).count x =
        if x ∈ acc then acc.count x else if x ∈ libs then 1 else 0 := by
  intro libs
  induction libs with
  | nil =>
    intro acc
    by_cases hx : x ∈ acc
    · simp [addMissing, hx]
    · simp [addMissing, hx, List.count_eq_zero.mpr hx]
  | cons lib rest ih =>
    intro acc
    have hstep : addMissing acc (lib :: rest) =
        addMissing (if acc.contains lib then acc else acc ++ [lib]) rest := rfl
    rw [hstep]
    by_cases hc : acc.contains lib = true
    · rw [if_pos hc, ih]
      have hlib : lib ∈ acc := by simpa using hc
      by_cases hx : x ∈ acc
      · simp [hx]
      · have hxlib : x ≠ lib := fun h => hx (h ▸ hlib)
        simp [hx, List.mem_cons, hxlib]
    · rw [if_neg hc, ih]
      have hlib : lib ∉ acc := fun h => hc (by simpa using h)
      by_cases hx : x ∈ acc
      · have hxlib : x ≠ lib := fun h => hlib (h ▸ hx)
        have hcnt : List.count x [lib] = 0 := by
          apply List.count_eq_zero.mpr
          simp [hxlib]
        rw [if_pos (List.mem_append_left _ hx), if_pos hx,
          List.count_append, hcnt]
        omega
      · by_cases hxlib : x = lib
        · subst hxlib
          rw [if_pos (List.mem_append_right _ (by simp))]
          rw [List.count_append]
          simp [List.count_eq_zero.mpr hx, hx]
        · rw [if_neg (by
            intro hmem
            rcases List.mem_append.mp hmem with h | h
            · exact hx h
            · exact hxlib (by simpa using h)), if_neg hx]
          simp [List.mem_cons, hxlib]

theorem mem_addMissing (x : String) (acc libs : List String) :
    x ∈ addMissing acc libs ↔ x ∈ acc ∨ x ∈ libs := by
  rw [← List.count_pos_iff, count_addMissing]
  by_cases hx : x ∈ acc
  · simp [hx, List.count_pos_iff]
  · by_cases hl : x ∈ libs
    · simp [hx, hl]
    · simp [hx, hl]

theorem count_librariesToSearch (r : Resolver) (t : String) (ctx : Option String)
    (x : String) :
    (librariesToSearch r t ctx).count x =
      if x ∈ contextLibraries r t ctx then (contextLibraries r t ctx).count x
      else if x ∈ (alistGet r.typeToLibraries t).getD [] then 1
      else if x ∈ (alistGet r.typeToLibraries "*").getD [] then 1 else 0 := by
  unfold librariesToSearch
  rw [count_addMissing, count_addMissing]
  simp only [mem_addMissing]
  by_cases hcm : x ∈ contextLibraries r t ctx
  · simp [hcm]
  · by_cases hg : x ∈ (alistGet r.typeToLibraries t).getD []
    · simp [hcm, hg]
    · simp [hcm, hg]

theorem librariesToSearch_count_mono (r₀ r₁ : Resolver) (t ctx x : String)
    (hCM : ∃ E, contextLibraries r₁ t (some ctx) =
      contextLibraries r₀ t (some ctx) ++ E)
    (hG : ∀ y, y ∈ (alistGet r₀.typeToLibraries t).getD [] →
      y ∈ (alistGet r₁.typeToLibraries t).getD [])
    (hW : ∀ y, y ∈ (alistGet r₀.typeToLibraries "*").getD [] →
      y ∈ (alistGet r₁.typeToLibraries "*").getD []) :
    (librariesToSearch r₀ t (some ctx)).count x ≤
      (librariesToSearch r₁ t (some ctx)).count x := by
  obtain ⟨E, hE⟩ := hCM
  rw [count_librariesToSearch, count_librariesToSearch, hE]
  by_cases hcm : x ∈ contextLibraries r₀ t (some ctx)
  · rw [if_pos hcm, if_pos (List.mem_append_left _ hcm), List.count_append]
    omega
  · rw [if_neg hcm]
    by_cases hg : x ∈ (alistGet r₀.typeToLibraries t).getD []
    · rw [if_pos hg]
      by_cases hcm₁ : x ∈ contextLibraries r₀ t (some ctx) ++ E
      · rw [if_pos hcm₁]
        have := List.count_pos_iff.mpr hcm₁
        omega
      · rw [if_neg hcm₁, if_pos (hG x hg)]
    · rw [if_neg hg]
      by_cases hw : x ∈ (alistGet r₀.typeToLibraries "*").getD []
      · rw [if_pos hw]
        by_cases hcm₁ : x ∈ contextLibraries r₀ t (some ctx) ++ E
        · rw [if_pos hcm₁]
          have := List.count_pos_iff.mpr hcm₁
          omega
        · rw [if_neg hcm₁]
          by_cases hg₁ : x ∈ (alistGet r₁.typeToLibraries t).getD []
          · rw [if_pos hg₁]
          · rw [if_neg hg₁, if_pos (hW x hw)]
      · rw [if_neg hw]
        omega

theorem length_filterMap_mono_of_count_le {α β : Type} [DecidableEq α]
    (g : α → Option β) (l₀ l₁ : List α)
    (h : ∀ x, l₀.count x ≤ l₁.count x) :
    (l₀.filterMap g).length ≤ (l₁.filterMap g).length := by
  have hle : (l₀ : Multiset α) ≤ (l₁ : Multiset α) := by
    rw [Multiset.le_iff_count]
    intro a
    simpa using h a
  have hcard := Multiset.card_le_card (Multiset.filterMap_le_filterMap g hle)
  simpa using hcard

theorem libraryCandidate_congr (r₀ r₁ : Resolver) (ctx : String)
    (extra : List UsingDirective)
    (hcm : r₁.contractMap =
      r₀.contractMap.map (fun p => (p.1, widenContract ctx extra p.2)))
    (m lib : String) :
    libraryCandidate r₁ m lib = libraryCandidate r₀ m lib := by
  unfold libraryCandidate
  rw [hcm, alistGet_map_snd]
  cases hget : alistGet r₀.contractMap lib with
  | none => rfl
  | some library =>
    simp only [Option.map_some']
    rw [widenContract_kind]
    by_cases hk : library.kind ≠ ContractKind.library
    · simp only [if_pos hk]
    · simp only [if_neg hk]
      rw [widenContract_functions]
      cases hfind : library.functions.find? (fun f => f.name == m) with
      | none => rfl
      | some func =>
        simp only
        rw [widenContract_filePath]

theorem findLibraryMethods_length_mono (r₀ r₁ : Resolver) (ctx : String)
    (extra : List UsingDirective) (t m : String)
    (hcm : r₁.contractMap =
      r₀.contractMap.map (fun p => (p.1, widenContract ctx extra p.2)))
    (hCM : ∃ E, contextLibraries r₁ t (some ctx) =
      contextLibraries r₀ t (some ctx) ++ E)
    (hG : ∀ y, y ∈ (alistGet r₀.typeToLibraries t).getD [] →
      y ∈ (alistGet r₁.typeToLibraries t).getD [])
    (hW : ∀ y, y ∈ (alistGet r₀.typeToLibraries "*").getD [] →
      y ∈ (alistGet r₁.typeToLibraries "*").getD []) :
    (findLibraryMethods r₀ t m (some ctx)).length ≤
      (findLibraryMethods r₁ t m (some ctx)).length := by
  unfold findLibraryMethods
  have hcand : (librariesToSearch r₁ t (some ctx)).filterMap
      (libraryCandidate r₁ m) =
      (librariesToSearch r₁ t (some ctx)).filterMap (libraryCandidate r₀ m) := by
    apply List.filterMap_congr
    intro lib _
    exact libraryCandidate_congr r₀ r₁ ctx extra hcm m lib
  rw [hcand]
  exact length_filterMap_mono_of_count_le _ _ _
    (fun x => librariesToSearch_count_mono r₀ r₁ t ctx x hCM hG hW)

/-! ### C1: claim, counterexample and amended theorem -/

/-- A workspace with a context contract `C` (no directives), a plain contract
`X` and a library `L`, both with a non-empty method `foo`. -/
def wsC1 : Workspace :=
  [("a.sol",
    ⟨[{ name := "C" },
      { name := "X", functions := [{ name := "foo", body := "x" }] },
      { name := "L", kind := ContractKind.library,
        functions := [{ name := "foo", body := "y" }] }]⟩)]

/-- The directive added to `C` in the widened snapshot: `using L for T`. -/
def dC1 : UsingDirective := { libraryName := "L", forType := "T" }

/-- Counterexample to C1 as stated: on `wsC1` the query
`findAllImplementations("T", "foo", "C")` returns 2 results (the global
fallback), but after widening `C`'s directives with `using L for T` it
returns only 1 (the library match suppresses the fallback): the result count
strictly decreases. -/
theorem C1_counterexample_widening_decreases_count :
    (findAllImplementations (buildInheritanceGraph wsC1) 100 "T" "foo"
        (some "C")).map List.length = some 2 ∧
    (findAllImplementations
        (buildInheritanceGraph (widenWorkspace wsC1 "C" [dC1])) 100 "T" "foo"
        (some "C")).map List.length = some 1 := by
  constructor
  · rw [buildInheritanceGraph_eq_exec]
    decide
  · rw [buildInheritanceGraph_eq_exec]
    decide

/-- Claim C1, amended: widening the context type's directive list never
decreases `findAllImplementations`'s result count **provided** the context
type's name is declared at most once in the snapshot and the original query
does not reach the global fallback (its pre-fallback union of library and
interface results is non-empty).  Without the proviso the claim is false:
the fallback can return more results than the widened library search. -/
theorem C1_findAllImplementations_widen_monotone
    (ws : Workspace) (ctx : String) (extra : List UsingDirective)
    (interfaceName methodName : String) (fuel : Nat)
    (hUnique : ((allContracts ws).filter (fun c => c.name == ctx)).length ≤ 1)
    (ifaceImpls impls₀ impls₁ : List ImplementationInfo)
    (hiface : findImplementations (buildInheritanceGraph ws) fuel interfaceName
      methodName = some ifaceImpls)
    (hpre : findLibraryMethods (buildInheritanceGraph ws) interfaceName
      methodName (some ctx) ++ ifaceImpls ≠ [])
    (h₀ : findAllImplementations (buildInheritanceGraph ws) fuel interfaceName
      methodName (some ctx) = some impls₀)
    (h₁ : findAllImplementations (buildInheritanceGraph (widenWorkspace ws ctx extra))
      fuel interfaceName methodName (some ctx) = some impls₁) :
    impls₀.length ≤ impls₁.length := by
  have hcm : (buildInheritanceGraph (widenWorkspace ws ctx extra)).contractMap =
      (buildInheritanceGraph ws).contractMap.map
        (fun p => (p.1, widenContract ctx extra p.2)) := by
    rw [build_contractMap, build_contractMap, cmapOf_widen]
  have hinh : (buildInheritanceGraph (widenWorkspace ws ctx extra)).inheritedBy =
      (buildInheritanceGraph ws).inheritedBy := by
    rw [build_inheritedBy, build_inheritedBy, cmapOf_widen, pass2_map]
  have hch : (buildInheritanceGraph (widenWorkspace ws ctx extra)).inheritanceChains =
      (buildInheritanceGraph ws).inheritanceChains := by
    rw [build_inheritanceChains, build_inheritanceChains, cmapOf_widen, pass3_map]
  have hio : findImplementations
      (buildInheritanceGraph (widenWorkspace ws ctx extra)) fuel interfaceName
        methodName =
      findImplementations (buildInheritanceGraph ws) fuel interfaceName
        methodName :=
    findImplementations_congr _ _ ctx extra hcm hinh hch fuel interfaceName
      methodName
  have hlen : (findLibraryMethods (buildInheritanceGraph ws) interfaceName
      methodName (some ctx)).length ≤
      (findLibraryMethods (buildInheritanceGraph (widenWorkspace ws ctx extra))
        interfaceName methodName (some ctx)).length := by
    apply findLibraryMethods_length_mono _ _ ctx extra _ _ hcm
    · exact contextLibraries_widen ws ctx extra interfaceName hUnique
    · intro y hy
      rw [build_typeToLibraries] at hy ⊢
      exact t2l_mem_mono ws ctx extra interfaceName y hy
    · intro y hy
      rw [build_typeToLibraries] at hy ⊢
      exact t2l_mem_mono ws ctx extra "*" y hy
  unfold findAllImplementations at h₀ h₁
  rw [hiface] at h₀
  rw [hio, hiface] at h₁
  simp only [Option.map_some'] at h₀ h₁
  injection h₀ with h₀
  injection h₁ with h₁
  have hne₀ : ¬ ((findLibraryMethods (buildInheritanceGraph ws) interfaceName
      methodName (some ctx) ++ ifaceImpls).isEmpty = true) := by
    intro h
    exact hpre (List.isEmpty_iff.mp h)
  have hne₁ : ¬ ((findLibraryMethods
      (buildInheritanceGraph (widenWorkspace ws ctx extra)) interfaceName
      methodName (some ctx) ++ ifaceImpls).isEmpty = true) := by
    intro h
    have hz := List.isEmpty_iff.mp h
    have := congrArg List.length hz
    rw [List.length_append] at this
    have h0 : (findLibraryMethods (buildInheritanceGraph ws) interfaceName
        methodName (some ctx) ++ ifaceImpls).length = 0 := by
      rw [List.length_append]
      simp only [List.length_nil] at this
      omega
    exact hpre (List.length_eq_zero.mp h0)
  rw [if_neg hne₀] at h₀
  rw [if_neg hne₁] at h₁
  subst h₀
  subst h₁
  rw [List.length_append, List.length_append]
  omega

/-- The library implementation found through the `using L for T` directive. -/
def implC1 : ImplementationInfo :=
  { contractName := "L"
    contractKind := ContractKind.library
    functionInfo := { name := "foo", body := "y" }
    filePath := ""
    isInherited := false
    inheritanceChain := ["L"] }

/-- The already-widened base snapshot used by the C1 witness: `C` carries
`using L for T`. -/
def wsC1w : Workspace := widenWorkspace wsC1 "C" [dC1]

/-- The further widening directive of the C1 witness: `using L for *`. -/
def dC1w : UsingDirective := { libraryName := "L", forType := "*" }

/-- Witness for the amended C1 at a concrete snapshot: widening `C`'s
directives from `[using L for T]` to `[using L for T, using L for *]` grows
the result count from 1 to 2. -/
theorem C1_findAllImplementations_widen_monotone_witness :
    ((allContracts wsC1w).filter (fun c => c.name == "C")).length ≤ 1 ∧
    findImplementations (buildInheritanceGraph wsC1w) 100 "T" "foo" = some [] ∧
    findLibraryMethods (buildInheritanceGraph wsC1w) "T" "foo" (some "C") ++
      ([] : List ImplementationInfo) ≠ [] ∧
    findAllImplementations (buildInheritanceGraph wsC1w) 100 "T" "foo"
      (some "C") = some [implC1] ∧
    findAllImplementations (buildInheritanceGraph (widenWorkspace wsC1w "C" [dC1w]))
      100 "T" "foo" (some "C") = some [implC1, implC1] ∧
    ([implC1] : List ImplementationInfo).length ≤
      ([implC1, implC1] : List ImplementationInfo).length := by
  have hU : ((allContracts wsC1w).filter (fun c => c.name == "C")).length ≤ 1 := by
    decide
  have hif : findImplementations (buildInheritanceGraph wsC1w) 100 "T" "foo" =
      some [] := by
    rw [buildInheritanceGraph_eq_exec]
    decide
  have hpre : findLibraryMethods (buildInheritanceGraph wsC1w) "T" "foo"
      (some "C") ++ ([] : List ImplementationInfo) ≠ [] := by
    rw [buildInheritanceGraph_eq_exec]
    decide
  have h₀ : findAllImplementations (buildInheritanceGraph wsC1w) 100 "T" "foo"
      (some "C") = some [implC1] := by
    rw [buildInheritanceGraph_eq_exec]
    decide
  have h₁ : findAllImplementations
      (buildInheritanceGraph (widenWorkspace wsC1w "C" [dC1w])) 100 "T" "foo"
      (some "C") = some [implC1, implC1] := by
    rw [buildInheritanceGraph_eq_exec]
    decide
  exact ⟨hU, hif, hpre, h₀, h₁,
    C1_findAllImplementations_widen_monotone wsC1w "C" [dC1w] "T" "foo" 100 hU
      [] [implC1] [implC1, implC1] hif hpre h₀ h₁⟩

/-! ## A small backtracking regular-expression engine

The `DataFlowAnalyzer` is written against JavaScript regular expressions.
Each regex literal of the source is transcribed below into an `RE` syntax
tree, and `mrun` is a backtracking matcher implementing the JavaScript
semantics needed by those patterns: ordered (leftmost-preference)
alternation, greedy `*`/`+`/`?` over single-character classes, word
boundaries `\b`, the input anchor `^`, capture groups, and a negative
lookahead.  `scanFrom` finds the leftmost match (like `RegExp.exec`), and
`allMatches` iterates a global regex advancing `lastIndex` past each match.
All transcribed patterns consume at least one character, so the `max 1`
advance in `allMatches` (which only guarantees totality) is never hit. -/

/-- A character class: ranges and explicit characters, possibly negated. -/
structure CharClass where
  neg : Bool := false
  ranges : List (Char × Char) := []
  chars : List Char := []
deriving DecidableEq, Repr

/-- Does the class accept the character? -/
def CharClass.test (cc : CharClass) (c : Char) : Bool :=
  let base := cc.ranges.any (fun r => decide (r.1 ≤ c) && decide (c ≤ r.2)) ||
    cc.chars.contains c
  if cc.neg then !base else base

/-- `\d` -/
def ccDigit : CharClass := { ranges := [('0', '9')] }

/-- `\w` (also the word-character set used by `\b`) -/
def ccWord : CharClass := { ranges := [('a', 'z'), ('A', 'Z'), ('0', '9')], chars := ['_'] }

/-- `\s` (the ASCII part of the JavaScript class) -/
def ccSpace : CharClass := { chars := [' ', '\t', '\n', '\r', '\x0b', '\x0c'] }

/-- `[a-z_]` -/
def ccLowerU : CharClass := { ranges := [('a', 'z')], chars := ['_'] }

/-- `[A-Z]` -/
def ccUpper : CharClass := { ranges := [('A', 'Z')] }

/-- `[^\]]` -/
def ccNotRBracket : CharClass := { neg := true, chars := [']'] }

/-- `[^)]` -/
def ccNotRParen : CharClass := { neg := true, chars := [')'] }

/-- `[^;]` -/
def ccNotSemi : CharClass := { neg := true, chars := [';'] }

/-- `[+\-*\/]` -/
def ccOp : CharClass := { chars := ['+', '-', '*', '/'] }

/-- `[=;,)]` -/
def ccAssignEnd : CharClass := { chars := ['=', ';', ',', ')'] }

/-- `[{(]` -/
def ccCallOpen : CharClass := { chars := ['{', '('] }

/-- Regular-expression syntax trees (only the constructs the analyzer uses). -/
inductive RE where
  | eps
  | lit (s : List Char)
  | cls (cc : CharClass)
  | cat (a b : RE)
  | alt (a b : RE)
  | opt (a : RE)
  | starCls (cc : CharClass)
  | plusCls (cc : CharClass)
  | wb
  | nla (a : RE)
  | grp (idx : Nat) (a : RE)
  | bol
deriving Repr

/-- Concatenation of a pattern list. -/
def reSeq (l : List RE) : RE := l.foldr RE.cat RE.eps

/-- Alternation of a non-empty pattern list (left preference). -/
def reAlt : List RE → RE
  | [] => RE.nla RE.eps
  | [r] => r
  | r :: rest => RE.alt r (reAlt rest)

/-- Is `c` a word character (for `\b`)? -/
def isWordChar (c : Char) : Bool := ccWord.test c

/-- Strip a literal prefix. -/
def stripPrefix : List Char → List Char → Option (List Char)
  | [], s => some s
  | _ :: _, [] => none
  | c :: cs, x :: xs => if c == x then stripPrefix cs xs else none

/-- A match outcome: the character before the current position, the remaining
input, and the captures recorded so far. -/
abbrev REOutcome := Option Char × List Char × List (Nat × List Char)

/-- All ways the pattern can match a prefix of `s`, in JavaScript
backtracking-preference order (first = preferred).  `prev` is the character
just before the current position (for `\b` and `^`). -/
def mrun : RE → Option Char → List Char → List REOutcome
  | RE.eps, prev, s => [(prev, s, [])]
  | RE.lit l, prev, s =>
    match stripPrefix l s with
    | none => []
    | some rest => [(if l.isEmpty then prev else l.getLast?, rest, [])]
  | RE.cls cc, _, s =>
    match s with
    | [] => []
    | c :: rest => if cc.test c then [(some c, rest, [])] else []
  | RE.cat a b, prev, s =>
    (mrun a prev s).flatMap (fun o =>
      (mrun b o.1 o.2.1).map (fun o' => (o'.1, o'.2.1, o.2.2 ++ o'.2.2)))
  | RE.alt a b, prev, s => mrun a prev s ++ mrun b prev s
  | RE.opt a, prev, s => mrun a prev s ++ [(prev, s, [])]
  | RE.starCls cc, prev, s =>
    let run := s.takeWhile cc.test
    (List.range (run.length + 1)).reverse.map (fun k =>
      (if k = 0 then prev else (run.take k).getLast?, s.drop k, []))
  | RE.plusCls cc, _, s =>
    let run := s.takeWhile cc.test
    (List.range run.length).reverse.map (fun j =>
      (some ((run.take (j + 1)).getLastD ' '), s.drop (j + 1), []))
  | RE.wb, prev, s =>
    let before := match prev with | some c => isWordChar c | none => false
    let after := match s with | c :: _ => isWordChar c | [] => false
    if before != after then [(prev, s, [])] else []
  | RE.nla a, prev, s => if (mrun a prev s).isEmpty then [(prev, s, [])] else []
  | RE.grp i a, prev, s =>
    (mrun a prev s).map (fun o =>
      (o.1, o.2.1, o.2.2 ++ [(i, s.take (s.length - o.2.1.length))]))
  | RE.bol, prev, s =>
    match prev with
    | none => [(prev, s, [])]
    | some _ => []

/-- A whole match: start index, length, captures. -/
abbrev REMatch := Nat × Nat × List (Nat × List Char)

/-- Find the leftmost match starting at or after the current position. -/
def scanFrom (re : RE) : Option Char → List Char → Nat → Option REMatch
  | prev, s, idx =>
    match mrun re prev s with
    | o :: _ => some (idx, s.length - o.2.1.length, o.2.2)
    | [] =>
      match s with
      | [] => none
      | c :: rest => scanFrom re (some c) rest (idx + 1)

/-- Leftmost match at or after byte position `i` of `s` (like `exec` with
`lastIndex = i`). -/
def scanFromPos (re : RE) (s : List Char) (i : Nat) : Option REMatch :=
  scanFrom re (if i = 0 then none else (s.drop (i - 1)).head?) (s.drop i) i

/-- `pattern.test(line)`. -/
def reTest (re : RE) (s : List Char) : Bool := (scanFromPos re s 0).isSome

/-- `line.match(pattern)` for a non-global pattern (first match). -/
def reMatch (re : RE) (s : List Char) : Option REMatch := scanFromPos re s 0

/-- The capture `match[i]` (last assignment wins, like JavaScript). -/
def capGet (caps : List (Nat × List Char)) (i : Nat) : Option (List Char) :=
  ((caps.filter (fun p => p.1 == i)).getLast?).map (fun p => p.2)

/-- All matches of a global pattern, advancing `lastIndex` to the match end
after each one (the `while ((match = re.exec(line)))` loop).  The fuel only
guarantees totality; every transcribed pattern consumes at least one
character, and `lastIndex` strictly increases. -/
def allMatchesAux (re : RE) (s : List Char) : Nat → Nat → List REMatch
  | 0, _ => []
  | fuel + 1, i =>
    match scanFromPos re s i with
    | none => []
    | some (idx, len, caps) =>
      (idx, len, caps) :: allMatchesAux re s fuel (idx + max 1 len)

/-- All matches of a global pattern over `s`. -/
def allMatches (re : RE) (s : List Char) : List REMatch :=
  allMatchesAux re s (s.length + 1) 0

/-- Anchored whole-string test (`^...$`). -/
def anchoredTest (re : RE) (s : List Char) : Bool :=
  (mrun re none s).any (fun o => o.2.1.isEmpty)

/-! ## String helpers for the analyzer (JavaScript semantics) -/

/-- The character-list core of `jsTrim`. -/
def trimList (l : List Char) : List Char :=
  ((l.dropWhile Char.isWhitespace).reverse.dropWhile Char.isWhitespace).reverse

/-- `String.prototype.split(sep)` for a single-character separator. -/
def splitOnChar (sep : Char) : List Char → List (List Char)
  | [] => [[]]
  | c :: rest =>
    match splitOnChar sep rest with
    | [] => [[c]]
    | h :: t => if c == sep then [] :: h :: t else (c :: h) :: t

/-- Split at every character satisfying `p` (runs produce empty pieces). -/
def splitOnPred (p : Char → Bool) : List Char → List (List Char)
  | [] => [[]]
  | c :: rest =>
    match splitOnPred p rest with
    | [] => [[c]]
    | h :: t => if p c then [] :: h :: t else (c :: h) :: t

/-- `String.prototype.split(/\s+/)` as applied to already-trimmed pieces:
whitespace runs separate the fields; the empty string yields `[""]`. -/
def jsSplitWs (l : List Char) : List (List Char) :=
  if l.isEmpty then [[]]
  else (splitOnPred Char.isWhitespace l).filter (fun w => !w.isEmpty)

/-- First index at which `sub` occurs in `s`. -/
def jsIndexOfAux (sub : List Char) : List Char → Nat → Option Nat
  | s, i =>
    if sub.isPrefixOf s then some i
    else
      match s with
      | [] => none
      | _ :: rest => jsIndexOfAux sub rest (i + 1)

/-- `String.prototype.indexOf`, at the analyzer's call sites the needle is
always present, so the missing case (JavaScript's `-1`) is mapped to `0`. -/
def jsIndexOf (s sub : List Char) : Nat := (jsIndexOfAux sub s 0).getD 0

/-- `String.prototype.includes`. -/
def jsIncludes (s sub : List Char) : Bool := (jsIndexOfAux sub s 0).isSome

/-- Lower-case a character list (models the `/i` regex flag: the analyzer's
case-insensitive patterns contain only lower-case literals, digits and `_`,
so testing them against the lower-cased name is equivalent). -/
def lowerChars (l : List Char) : List Char := l.map Char.toLower

/-! ## The analyzer's regular expressions, transcribed -/

/-- `/\b(uint\d*|int\d*|address|bool|bytes\d*|string|mapping\([^)]+\)|[A-Z][a-zA-Z0-9_]*)\s+(?:memory\s+|storage\s+|calldata\s+)?([a-z_][a-zA-Z0-9_]*)\s*[=;,)]/g` -/
def declPattern : RE :=
  reSeq [RE.wb,
    RE.grp 1 (reAlt [
      RE.cat (RE.lit "uint".data) (RE.starCls ccDigit),
      RE.cat (RE.lit "int".data) (RE.starCls ccDigit),
      RE.lit "address".data,
      RE.lit "bool".data,
      RE.cat (RE.lit "bytes".data) (RE.starCls ccDigit),
      RE.lit "string".data,
      reSeq [RE.lit "mapping(".data, RE.plusCls ccNotRParen, RE.lit ")".data],
      RE.cat (RE.cls ccUpper) (RE.starCls ccWord)]),
    RE.plusCls ccSpace,
    RE.opt (reAlt [
      RE.cat (RE.lit "memory".data) (RE.plusCls ccSpace),
      RE.cat (RE.lit "storage".data) (RE.plusCls ccSpace),
      RE.cat (RE.lit "calldata".data) (RE.plusCls ccSpace)]),
    RE.grp 2 (RE.cat (RE.cls ccLowerU) (RE.starCls ccWord)),
    RE.starCls ccSpace,
    RE.cls ccAssignEnd]

/-- `/\(\s*([^)]+)\s*\)\s*=/` -/
def tuplePattern : RE :=
  reSeq [RE.lit "(".data, RE.starCls ccSpace, RE.grp 1 (RE.plusCls ccNotRParen),
    RE.starCls ccSpace, RE.lit ")".data, RE.starCls ccSpace, RE.lit "=".data]

/-- `/\b([a-z_][a-zA-Z0-9_]*)\s*([+\-*\/])?=\s*([^;]+)/g` -/
def assignPattern : RE :=
  reSeq [RE.wb, RE.grp 1 (RE.cat (RE.cls ccLowerU) (RE.starCls ccWord)),
    RE.starCls ccSpace, RE.opt (RE.grp 2 (RE.cls ccOp)), RE.lit "=".data,
    RE.starCls ccSpace, RE.grp 3 (RE.plusCls ccNotSemi)]

/-- `/\b([a-z_][a-zA-Z0-9_]*)\s*\[[^\]]+\]\s*[+\-*\/]?=/g` -/
def mappingWritePattern : RE :=
  reSeq [RE.wb, RE.grp 1 (RE.cat (RE.cls ccLowerU) (RE.starCls ccWord)),
    RE.starCls ccSpace, RE.lit "[".data, RE.plusCls ccNotRBracket,
    RE.lit "]".data, RE.starCls ccSpace, RE.opt (RE.cls ccOp), RE.lit "=".data]

/-- `/\b([a-z_][a-zA-Z0-9_]*)\b/g` -/
def identifierPattern : RE :=
  reSeq [RE.wb, RE.grp 1 (RE.cat (RE.cls ccLowerU) (RE.starCls ccWord)), RE.wb]

/-- `/^[a-z_][a-zA-Z0-9_]*$/` (anchored identifier test, via `anchoredTest`) -/
def identAnchor : RE := RE.cat (RE.cls ccLowerU) (RE.starCls ccWord)

/-- `/^\s*[+\-*\/]?=(?!=)/` -/
def defCtxPattern : RE :=
  reSeq [RE.bol, RE.starCls ccSpace, RE.opt (RE.cls ccOp), RE.lit "=".data,
    RE.nla (RE.lit "=".data)]

/-- `/\.name\s*\(/` -/
def callPat (name : String) : RE :=
  reSeq [RE.lit ("." ++ name).data, RE.starCls ccSpace, RE.lit "(".data]

/-- `EXTERNAL_CALL_PATTERNS`, in source order. -/
def externalCallPatterns : List RE :=
  [callPat "transfer", callPat "send",
   reSeq [RE.lit ".call".data, RE.starCls ccSpace, RE.cls ccCallOpen],
   callPat "delegatecall", callPat "staticcall", callPat "safeTransfer",
   callPat "safeTransferFrom", callPat "safeApprove", callPat "approve",
   callPat "transferFrom", callPat "mint", callPat "burn", callPat "deposit",
   callPat "withdraw", callPat "borrow", callPat "repay", callPat "swap",
   reSeq [RE.lit ".flash".data, RE.starCls ccWord, RE.starCls ccSpace,
     RE.lit "(".data],
   callPat "liquidate", callPat "stake", callPat "unstake", callPat "claim",
   callPat "harvest", callPat "compound", callPat "redeem", callPat "supply",
   callPat "getReward", callPat "execute", callPat "multicall",
   callPat "exactInput", callPat "exactOutput", callPat "addLiquidity",
   callPat "removeLiquidity"]

/-- `/\breturn\s+([^;]+)/` -/
def returnPattern : RE :=
  reSeq [RE.wb, RE.lit "return".data, RE.plusCls ccSpace,
    RE.grp 1 (RE.plusCls ccNotSemi)]

/-- `/\bemit\s+([A-Z][a-zA-Z0-9_]*)\s*\(([^)]*)\)/` -/
def emitPattern : RE :=
  reSeq [RE.wb, RE.lit "emit".data, RE.plusCls ccSpace,
    RE.grp 1 (RE.cat (RE.cls ccUpper) (RE.starCls ccWord)), RE.starCls ccSpace,
    RE.lit "(".data, RE.grp 2 (RE.starCls ccNotRParen), RE.lit ")".data]

/-- `/\b([a-z_][a-zA-Z0-9_]*)\.(?:transfer|send|call|safeTransfer|approve)/` -/
def callTargetPattern : RE :=
  reSeq [RE.wb, RE.grp 1 (RE.cat (RE.cls ccLowerU) (RE.starCls ccWord)),
    RE.lit ".".data,
    reAlt [RE.lit "transfer".data, RE.lit "send".data, RE.lit "call".data,
      RE.lit "safeTransfer".data, RE.lit "approve".data]]

/-- ``new RegExp(`\\b${stateVar}\\s*[+\\-*\\/]?=`)`` (the variable name is
interpolated as a literal; analyzer state variables are plain identifiers). -/
def directAssignPattern (stateVar : String) : RE :=
  reSeq [RE.wb, RE.lit stateVar.data, RE.starCls ccSpace, RE.opt (RE.cls ccOp),
    RE.lit "=".data]

/-- ``new RegExp(`\\b${stateVar}\\s*\\[[^\\]]+\\]\\s*[+\\-*\\/]?=`)`` -/
def mappingWriteVarPattern (stateVar : String) : RE :=
  reSeq [RE.wb, RE.lit stateVar.data, RE.starCls ccSpace, RE.lit "[".data,
    RE.plusCls ccNotRBracket, RE.lit "]".data, RE.starCls ccSpace,
    RE.opt (RE.cls ccOp), RE.lit "=".data]

/-- `AMOUNT_PATTERNS` (case-insensitivity handled by lower-casing the input):
`/^(amount|value|qty|quantity|balance|shares|tokens?|assets?|debt|collateral|principal|interest|fee|reward|price|rate|liquidity|reserve|supply|borrow|lend|stake|deposit|withdraw|repay|claim|earned|accrued|owed|due|delta|diff|change|input|output|in|out)_?[0-9]*$/i` -/
def amountPattern : RE :=
  reSeq [RE.grp 1 (reAlt [
      RE.lit "amount".data, RE.lit "value".data, RE.lit "qty".data,
      RE.lit "quantity".data, RE.lit "balance".data, RE.lit "shares".data,
      RE.cat (RE.lit "token".data) (RE.opt (RE.lit "s".data)),
      RE.cat (RE.lit "asset".data) (RE.opt (RE.lit "s".data)),
      RE.lit "debt".data, RE.lit "collateral".data, RE.lit "principal".data,
      RE.lit "interest".data, RE.lit "fee".data, RE.lit "reward".data,
      RE.lit "price".data, RE.lit "rate".data, RE.lit "liquidity".data,
      RE.lit "reserve".data, RE.lit "supply".data, RE.lit "borrow".data,
      RE.lit "lend".data, RE.lit "stake".data, RE.lit "deposit".data,
      RE.lit "withdraw".data, RE.lit "repay".data, RE.lit "claim".data,
      RE.lit "earned".data, RE.lit "accrued".data, RE.lit "owed".data,
      RE.lit "due".data, RE.lit "delta".data, RE.lit "diff".data,
      RE.lit "change".data, RE.lit "input".data, RE.lit "output".data,
      RE.lit "in".data, RE.lit "out".data]),
    RE.opt (RE.lit "_".data), RE.starCls ccDigit]

/-- `ADDRESS_PATTERNS` (case-insensitivity handled by lower-casing the input). -/
def addressPattern : RE :=
  reSeq [RE.grp 1 (reAlt [
      RE.lit "to".data, RE.lit "from".data, RE.lit "recipient".data,
      RE.lit "sender".data, RE.lit "target".data, RE.lit "dest".data,
      RE.lit "destination".data, RE.lit "owner".data, RE.lit "spender".data,
      RE.lit "operator".data, RE.lit "pool".data, RE.lit "vault".data,
      RE.lit "token".data, RE.lit "contract".data, RE.lit "router".data,
      RE.lit "factory".data, RE.lit "pair".data, RE.lit "oracle".data,
      RE.lit "controller".data, RE.lit "manager".data, RE.lit "registry".data,
      RE.lit "adapter".data, RE.lit "strategy".data, RE.lit "gauge".data,
      RE.lit "staker".data, RE.lit "delegatee".data, RE.lit "borrower".data,
      RE.lit "lender".data, RE.lit "liquidator".data, RE.lit "receiver".data]),
    RE.opt (RE.lit "_".data), RE.starCls ccDigit]

/-! ## Data-flow model -/

/-- `DataFlowNode.kind` (`'parameter' | 'local' | 'state' | 'return' | 'msg'
| 'block' | 'tx'`; `ret` models `'return'`). -/
inductive NodeKind where
  | parameter
  | «local»
  | state
  | ret
  | msg
  | block
  | tx
deriving DecidableEq, Repr

/-- `DataFlowNode.defiTag` values. -/
inductive DefiTag where
  | tokenAmount
  | addressTarget
  | msgValue
  | msgSender
  | balance
deriving DecidableEq, Repr

/-- `DataFlowEdge.edgeType` (`ret` models `'return'`). -/
inductive EdgeKind where
  | assign
  | use
  | callArg
  | ret
  | stateWrite
  | stateRead
  | externalCall
deriving DecidableEq, Repr

/-- `SinkInfo.kind` (`ret` models `'return'`). -/
inductive SinkKind where
  | externalCall
  | stateWrite
  | ret
  | eventEmit
deriving DecidableEq, Repr

/-- A node of the data-flow graph. -/
structure DataFlowNode where
  varName : String
  kind : NodeKind
  line : Nat
  column : Nat
  isDefinition : Bool
  typeName : Option String := none
  defiTag : Option DefiTag := none
deriving DecidableEq, Repr

/-- An edge of the data-flow graph (`«from»` models the `from` field). -/
structure DataFlowEdge where
  «from» : DataFlowNode
  «to» : DataFlowNode
  edgeType : EdgeKind
  transformation : Option String := none
deriving DecidableEq, Repr

/-- A sink record. -/
structure SinkInfo where
  kind : SinkKind
  line : Nat
  column : Nat
  description : String
  inputVars : List String
  callTarget : Option String := none
deriving DecidableEq, Repr

/-- The data-flow graph of one analyzed function. -/
structure DataFlowGraph where
  nodes : List DataFlowNode
  edges : List DataFlowEdge
  sinks : List SinkInfo
  definitions : AList (List DataFlowNode)
  uses : AList (List DataFlowNode)
deriving DecidableEq, Repr

/-- `if (!map.has(k)) map.set(k, []); map.get(k)!.push(n)` -/
def mapPush (m : AList (List DataFlowNode)) (k : String) (n : DataFlowNode) :
    AList (List DataFlowNode) :=
  alistSet m k ((alistGet m k).getD [] ++ [n])

/-- `inferDefiTag(varName, typeName?)`. -/
def inferDefiTag (varName : String) (typeName : Option String := none) :
    Option DefiTag :=
  if varName == "msg.value" then some DefiTag.msgValue
  else if varName == "msg.sender" then some DefiTag.msgSender
  else if jsIncludes (lowerChars varName.data) "balance".data then
    some DefiTag.balance
  else if anchoredTest amountPattern (lowerChars varName.data) then
    some DefiTag.tokenAmount
  else if anchoredTest addressPattern (lowerChars varName.data) ||
      typeName == some "address" then
    some DefiTag.addressTarget
  else none

/-- The keyword set skipped by `extractUses`. -/
def skipWordsUses : List String :=
  ["if", "else", "for", "while", "do", "return", "require", "assert", "revert",
   "emit", "new", "delete", "true", "false", "this", "super",
   "memory", "storage", "calldata", "public", "private", "internal", "external",
   "pure", "view", "payable", "virtual", "override", "indexed",
   "abi", "block", "tx", "gasleft", "blockhash", "type"]

/-- The keyword set skipped by `extractVariablesFromExpression`. -/
def skipWordsExpr : List String :=
  ["if", "else", "for", "while", "do", "return", "require", "assert", "revert",
   "emit", "new", "delete", "true", "false", "this", "super",
   "memory", "storage", "calldata", "public", "private", "internal", "external",
   "pure", "view", "payable", "abi", "type", "msg", "block", "tx"]

/-- `extractVariablesFromExpression`: deduplicated identifiers. -/
def extractVariablesFromExpression (expression : List Char) : List String :=
  (allMatches identifierPattern expression).foldl
    (fun vars m =>
      let varName : String := ⟨(capGet m.2.2 1).getD []⟩
      if skipWordsExpr.contains varName || vars.contains varName then vars
      else vars ++ [varName])
    []

/-- `extractParameterDefinitions`. -/
def extractParameterDefinitions (parameters : List ParameterInfo)
    (startLine : Nat) (nodes : List DataFlowNode)
    (definitions : AList (List DataFlowNode)) :
    List DataFlowNode × AList (List DataFlowNode) :=
  parameters.foldl
    (fun st param =>
      if param.name == "" then st
      else
        let node : DataFlowNode :=
          { varName := param.name, kind := NodeKind.parameter, line := startLine,
            column := 0, isDefinition := true, typeName := some param.typeName,
            defiTag := inferDefiTag param.name (some param.typeName) }
        (st.1 ++ [node], mapPush st.2 param.name node))
    (nodes, definitions)

/-- `extractLocalDeclarations`. -/
def extractLocalDeclarations (line : List Char) (lineNum : Nat)
    (nodes : List DataFlowNode) (definitions : AList (List DataFlowNode))
    (stateVariables : List String) :
    List DataFlowNode × AList (List DataFlowNode) :=
  let afterDecl :=
    (allMatches declPattern line).foldl
      (fun st m =>
        let typeName : String := ⟨(capGet m.2.2 1).getD []⟩
        let varName : String := ⟨(capGet m.2.2 2).getD []⟩
        if stateVariables.contains varName then st
        else
          let node : DataFlowNode :=
            { varName := varName, kind := NodeKind.«local», line := lineNum,
              column := m.1, isDefinition := true, typeName := some typeName,
              defiTag := inferDefiTag varName (some typeName) }
          (st.1 ++ [node], mapPush st.2 varName node))
      (nodes, definitions)
  match reMatch tuplePattern line with
  | none => afterDecl
  | some m =>
    let tupleVars := (splitOnChar ',' ((capGet m.2.2 1).getD [])).map trimList
    tupleVars.foldl
      (fun st varDecl =>
        let parts := jsSplitWs varDecl
        match parts.getLast? with
        | none => st
        | some varNameL =>
          let varName : String := ⟨varNameL⟩
          if varName ≠ "" && anchoredTest identAnchor varNameL &&
              !stateVariables.contains varName then
            let node : DataFlowNode :=
              { varName := varName, kind := NodeKind.«local», line := lineNum,
                column := jsIndexOf line varNameL, isDefinition := true,
                defiTag := inferDefiTag varName
                  (if parts.length > 1 then some ⟨parts.headD []⟩ else none) }
            (st.1 ++ [node], mapPush st.2 varName node)
          else st)
      afterDecl

/-- `extractAssignments` (the `uses` parameter of the source is never read). -/
def extractAssignments (line : List Char) (lineNum : Nat)
    (nodes : List DataFlowNode) (edges : List DataFlowEdge)
    (definitions : AList (List DataFlowNode)) (stateVariables : List String) :
    List DataFlowNode × List DataFlowEdge × AList (List DataFlowNode) :=
  let afterAssign :=
    (allMatches assignPattern line).foldl
      (fun st m =>
        let targetVar : String := ⟨(capGet m.2.2 1).getD []⟩
        let operator : String := ⟨(capGet m.2.2 2).getD []⟩
        let expression : List Char := (capGet m.2.2 3).getD []
        let isStateWrite := stateVariables.contains targetVar
        let targetNode : DataFlowNode :=
          { varName := targetVar,
            kind := if isStateWrite then NodeKind.state else NodeKind.«local»,
            line := lineNum, column := m.1, isDefinition := true,
            defiTag := inferDefiTag targetVar }
        let st' :=
          if !isStateWrite then
            match alistGet st.2.2 targetVar with
            | none =>
              (st.1 ++ [targetNode], st.2.1, mapPush st.2.2 targetVar targetNode)
            | some existingDefs =>
              if existingDefs.isEmpty then
                (st.1 ++ [targetNode], st.2.1, mapPush st.2.2 targetVar targetNode)
              else st
          else st
        (extractVariablesFromExpression expression).foldl
          (fun st'' sourceVar =>
            if jsIncludes expression (sourceVar ++ "(").data then st''
            else
              match alistGet st''.2.2 sourceVar with
              | none => st''
              | some sourceDefs =>
                match sourceDefs.getLast? with
                | none => st''
                | some sourceNode =>
                  (st''.1,
                   st''.2.1 ++
                     [{ «from» := sourceNode, «to» := targetNode,
                        edgeType := if isStateWrite then EdgeKind.stateWrite
                          else EdgeKind.assign,
                        transformation :=
                          if operator ≠ "" then some (operator ++ "=")
                          else none }],
                   st''.2.2))
          st')
      (nodes, edges, definitions)
  (allMatches mappingWritePattern line).foldl
    (fun st m =>
      let stateVar : String := ⟨(capGet m.2.2 1).getD []⟩
      if stateVariables.contains stateVar then
        let targetNode : DataFlowNode :=
          { varName := stateVar, kind := NodeKind.state, line := lineNum,
            column := m.1, isDefinition := true }
        (st.1 ++ [targetNode], st.2.1, st.2.2)
      else st)
    afterAssign

/-- The fixed environment pseudo-variables of `extractSpecialGlobals`. -/
def specialGlobals : List (String × NodeKind × Option DefiTag) :=
  [("msg.value", NodeKind.msg, some DefiTag.msgValue),
   ("msg.sender", NodeKind.msg, some DefiTag.msgSender),
   ("msg.data", NodeKind.msg, none),
   ("block.timestamp", NodeKind.block, none),
   ("block.number", NodeKind.block, none),
   ("tx.origin", NodeKind.tx, none),
   ("tx.gasprice", NodeKind.tx, none)]

/-- `extractSpecialGlobals`. -/
def extractSpecialGlobals (line : List Char) (lineNum : Nat)
    (nodes : List DataFlowNode) (uses : AList (List DataFlowNode)) :
    List DataFlowNode × AList (List DataFlowNode) :=
  specialGlobals.foldl
    (fun st g =>
      (allMatches (RE.lit g.1.data) line).foldl
        (fun st' m =>
          let node : DataFlowNode :=
            { varName := g.1, kind := g.2.1, line := lineNum, column := m.1,
              isDefinition := false, defiTag := g.2.2 }
          (st'.1 ++ [node], mapPush st'.2 g.1 node))
        st)
    (nodes, uses)

/-- `extractUses`. -/
def extractUses (line : List Char) (lineNum : Nat)
    (nodes : List DataFlowNode) (uses : AList (List DataFlowNode))
    (definitions : AList (List DataFlowNode)) (stateVariables : List String) :
    List DataFlowNode × AList (List DataFlowNode) :=
  let st :=
    (allMatches identifierPattern line).foldl
      (fun (st : List DataFlowNode × AList (List DataFlowNode) × List String) m =>
        let varName : String := ⟨(capGet m.2.2 1).getD []⟩
        let column := m.1
        if skipWordsUses.contains varName || st.2.2.contains varName then st
        else
          let seen := st.2.2 ++ [varName]
          let isDefined := (alistGet definitions varName).isSome
          let isState := stateVariables.contains varName
          if isDefined || isState then
            let restOfLine := line.drop (column + varName.length)
            if reTest defCtxPattern restOfLine then (st.1, st.2.1, seen)
            else
              let node : DataFlowNode :=
                { varName := varName,
                  kind := if isState then NodeKind.state
                    else ((((alistGet definitions varName).getD []).head?).map
                      (fun n => n.kind)).getD NodeKind.«local»,
                  line := lineNum, column := column, isDefinition := false,
                  defiTag := inferDefiTag varName }
              (st.1 ++ [node], mapPush st.2.1 varName node, seen)
          else (st.1, st.2.1, seen))
      (nodes, uses, ([] : List String))
  extractSpecialGlobals line lineNum st.1 st.2.1

/-- `extractSinks`. -/
def extractSinks (line : List Char) (lineNum : Nat) (sinks : List SinkInfo)
    (stateVariables : List String) : List SinkInfo :=
  let s1 :=
    if externalCallPatterns.any (fun p => reTest p line) then
      sinks ++
        [{ kind := SinkKind.externalCall, line := lineNum, column := 0,
           description := ⟨trimList line⟩,
           inputVars := extractVariablesFromExpression line,
           callTarget := (reMatch callTargetPattern line).bind
             (fun m => (capGet m.2.2 1).map (fun l => (⟨l⟩ : String))) }]
    else sinks
  let s2 :=
    match reMatch returnPattern line with
    | none => s1
    | some m =>
      let expr : List Char := (capGet m.2.2 1).getD []
      s1 ++
        [{ kind := SinkKind.ret, line := lineNum,
           column := jsIndexOf line "return".data,
           description := "return " ++ (⟨trimList expr⟩ : String),
           inputVars := extractVariablesFromExpression expr }]
  let s3 :=
    match reMatch emitPattern line with
    | none => s2
    | some m =>
      let eventName : String := ⟨(capGet m.2.2 1).getD []⟩
      let args : List Char := (capGet m.2.2 2).getD []
      s2 ++
        [{ kind := SinkKind.eventEmit, line := lineNum,
           column := jsIndexOf line "emit".data,
           description := "emit " ++ eventName ++ "(...)",
           inputVars := extractVariablesFromExpression args }]
  stateVariables.foldl
    (fun sk stateVar =>
      let sk' :=
        if reTest (directAssignPattern stateVar) line then
          sk ++
            [{ kind := SinkKind.stateWrite, line := lineNum,
               column := jsIndexOf line stateVar.data,
               description := stateVar ++ " = ...",
               inputVars := (extractVariablesFromExpression line).filter
                 (fun v => v ≠ stateVar) }]
        else sk
      if reTest (mappingWriteVarPattern stateVar) line then
        sk' ++
          [{ kind := SinkKind.stateWrite, line := lineNum,
             column := jsIndexOf line stateVar.data,
             description := stateVar ++ "[...] = ...",
             inputVars := (extractVariablesFromExpression line).filter
               (fun v => v ≠ stateVar) }]
      else sk')
    s3

/-- `buildFlowEdges`: connect every use to its most recent definition. -/
def buildFlowEdges (edges : List DataFlowEdge)
    (definitions uses : AList (List DataFlowNode)) : List DataFlowEdge :=
  uses.foldl
    (fun edges entry =>
      match alistGet definitions entry.1 with
      | none => edges
      | some defNodes =>
        if defNodes.isEmpty then edges
        else
          entry.2.foldl
            (fun edges useNode =>
              let mostRecent :=
                defNodes.foldl
                  (fun best defNode =>
                    if defNode.line ≤ useNode.line then
                      match best with
                      | none => some defNode
                      | some b =>
                        if b.line < defNode.line then some defNode else best
                    else best)
                  none
              match mostRecent with
              | none => edges
              | some d =>
                edges ++ [{ «from» := d, «to» := useNode, edgeType := EdgeKind.use }])
            edges)
    edges

/-- The per-line mutable state of `analyze`. -/
structure DFState where
  nodes : List DataFlowNode
  edges : List DataFlowEdge
  sinks : List SinkInfo
  definitions : AList (List DataFlowNode)
  uses : AList (List DataFlowNode)
deriving Repr

/-- One iteration of `analyze`'s per-line loop. -/
def analyzeLine (stateVariables : List String) (st : DFState) (lineNum : Nat)
    (line : List Char) : DFState :=
  let (nodes₁, defs₁) :=
    extractLocalDeclarations line lineNum st.nodes st.definitions stateVariables
  let (nodes₂, edges₂, defs₂) :=
    extractAssignments line lineNum nodes₁ st.edges defs₁ stateVariables
  let (nodes₃, uses₃) :=
    extractUses line lineNum nodes₂ st.uses defs₂ stateVariables
  let sinks₄ := extractSinks line lineNum st.sinks stateVariables
  { nodes := nodes₃, edges := edges₂, sinks := sinks₄, definitions := defs₂,
    uses := uses₃ }

/-- The state after `analyze`'s per-line loop (steps 1–2 of the algorithm). -/
def analyzeState (functionInfo : FunctionInfo)
    (stateVariables : List String) : DFState :=
  let lines := splitOnChar '\n' functionInfo.fullSource.data
  let startLine := functionInfo.location.start.line
  let (nodes₀, defs₀) :=
    extractParameterDefinitions functionInfo.parameters startLine [] []
  let st0 : DFState :=
    { nodes := nodes₀, edges := [], sinks := [], definitions := defs₀, uses := [] }
  lines.enum.foldl
    (fun st p => analyzeLine stateVariables st (startLine + p.1) p.2) st0

/-- `DataFlowAnalyzer.analyze`. -/
def analyze (functionInfo : FunctionInfo)
    (stateVariables : List String := []) : DataFlowGraph :=
  let st := analyzeState functionInfo stateVariables
  { nodes := st.nodes,
    edges := buildFlowEdges st.edges st.definitions st.uses,
    sinks := st.sinks,
    definitions := st.definitions, uses := st.uses }

/-- The flat transport form of a graph (`serializeGraph`'s return shape). -/
structure SerializedGraph where
  nodes : List DataFlowNode
  edges : List DataFlowEdge
  sinks : List SinkInfo
  definitions : List (String × List DataFlowNode)
  uses : List (String × List DataFlowNode)
deriving DecidableEq, Repr

/-- `serializeGraph`: `Array.from(map.entries())` of the association-list
embedding is the list itself. -/
def serializeGraph (graph : DataFlowGraph) : SerializedGraph :=
  { nodes := graph.nodes
    edges := graph.edges
    sinks := graph.sinks
    definitions := graph.definitions
    uses := graph.uses }

/-- `new Map(pairs)` (the renderer's reconstruction of the indices). -/
def mapFromPairs {α : Type} (pairs : List (String × α)) : AList α :=
  pairs.foldl (fun m p => alistSet m p.1 p.2) []

/-! ## Invariants of the analyzer state (C7 and C10) -/

theorem alistGet_mem {α : Type} {m : AList α} {k : String} {v : α}
    (h : alistGet m k = some v) : (k, v) ∈ m := by
  induction m with
  | nil => simp [alistGet] at h
  | cons p rest ih =>
    obtain ⟨k₀, v₀⟩ := p
    by_cases h0 : (k₀ == k) = true
    · have hk : k₀ = k := by simpa using h0
      subst hk
      simp only [alistGet, beq_self_eq_true, if_true, Option.some_inj] at h
      subst h
      exact List.mem_cons_self _ _
    · have h0' : (k₀ == k) = false := by simpa using h0
      simp only [alistGet, h0', Bool.false_eq_true, if_false] at h
      exact List.mem_cons_of_mem _ (ih h)

theorem mem_alistSet {α : Type} {m : AList α} {k : String} {v : α}
    {p : String × α} (h : p ∈ alistSet m k v) : p ∈ m ∨ p = (k, v) := by
  induction m with
  | nil =>
    simp only [alistSet, List.mem_singleton] at h
    exact Or.inr h
  | cons q rest ih =>
    obtain ⟨k₀, v₀⟩ := q
    by_cases h0 : (k₀ == k) = true
    · simp only [alistSet, h0, if_true, List.mem_cons] at h
      rcases h with rfl | h
      · exact Or.inr rfl
      · exact Or.inl (List.mem_cons_of_mem _ h)
    · have h0' : (k₀ == k) = false := by simpa using h0
      simp only [alistSet, h0', Bool.false_eq_true, if_false, List.mem_cons] at h
      rcases h with rfl | h
      · exact Or.inl (List.mem_cons_self _ _)
      · rcases ih h with h' | h'
        · exact Or.inl (List.mem_cons_of_mem _ h')
        · exact Or.inr h'

/-- All nodes stored under any key of the index have the given
`isDefinition` flag and carry their key as `varName`. -/
def NodesInvL (b : Bool) (m : AList (List DataFlowNode)) : Prop :=
  ∀ p ∈ m, ∀ n ∈ p.2, n.isDefinition = b ∧ n.varName = p.1

theorem nodesInvL_nil (b : Bool) : NodesInvL b [] := by
  intro p hp
  simp at hp

theorem mapPush_inv {b : Bool} {m : AList (List DataFlowNode)} {k : String}
    {n : DataFlowNode} (hm : NodesInvL b m) (hn : n.isDefinition = b)
    (hv : n.varName = k) : NodesInvL b (mapPush m k n) := by
  intro p hp n' hn'
  rcases mem_alistSet hp with h | rfl
  · exact hm p h n' hn'
  · simp only at hn' ⊢
    rcases List.mem_append.mp hn' with h | h
    · cases hget : alistGet m k with
      | none => rw [hget] at h; simp at h
      | some old =>
        rw [hget] at h
        simp only [Option.getD_some] at h
        exact hm (k, old) (alistGet_mem hget) n' h
    · rw [List.mem_singleton.mp h]
      exact ⟨hn, hv⟩

theorem foldl_preserves {σ α : Type} {P : σ → Prop} {f : σ → α → σ}
    (hf : ∀ s x, P s → P (f s x)) :
    ∀ (l : List α) (s : σ), P s → P (l.foldl f s) := by
  intro l
  induction l with
  | nil => intro s hs; exact hs
  | cons x rest ih =>
    intro s hs
    exact ih _ (hf s x hs)

theorem extractParameterDefinitions_inv (ps : List ParameterInfo)
    (sl : Nat) (nodes : List DataFlowNode) (defs : AList (List DataFlowNode))
    (h : NodesInvL true defs) :
    NodesInvL true (extractParameterDefinitions ps sl nodes defs).2 := by
  unfold extractParameterDefinitions
  have := foldl_preserves
    (P := fun st : List DataFlowNode × AList (List DataFlowNode) =>
      NodesInvL true st.2)
    (f := fun st param =>
      if param.name == "" then st
      else
        let node : DataFlowNode :=
          { varName := param.name, kind := NodeKind.parameter, line := sl,
            column := 0, isDefinition := true, typeName := some param.typeName,
            defiTag := inferDefiTag param.name (some param.typeName) }
        (st.1 ++ [node], mapPush st.2 param.name node))
    (fun st param hst => by
      by_cases hp : (param.name == "") = true
      · simpa [hp] using hst
      · simp only [hp, Bool.false_eq_true, if_false]
        exact mapPush_inv hst rfl rfl)
    ps (nodes, defs) h
  exact this

theorem extractLocalDeclarations_inv (line : List Char) (lineNum : Nat)
    (nodes : List DataFlowNode) (defs : AList (List DataFlowNode))
    (sv : List String) (h : NodesInvL true defs) :
    NodesInvL true (extractLocalDeclarations line lineNum nodes defs sv).2 := by
  unfold extractLocalDeclarations
  have hdecl :
      NodesInvL true
        ((allMatches declPattern line).foldl
          (fun st m =>
            let typeName : String := ⟨(capGet m.2.2 1).getD []⟩
            let varName : String := ⟨(capGet m.2.2 2).getD []⟩
            if sv.contains varName then st
            else
              let node : DataFlowNode :=
                { varName := varName, kind := NodeKind.«local», line := lineNum,
                  column := m.1, isDefinition := true,
                  typeName := some typeName,
                  defiTag := inferDefiTag varName (some typeName) }
              (st.1 ++ [node], mapPush st.2 varName node))
          (nodes, defs)).2 := by
    apply foldl_preserves
      (P := fun st : List DataFlowNode × AList (List DataFlowNode) =>
        NodesInvL true st.2) _ _ _ h
    intro st m hst
    by_cases hsv : sv.contains (⟨(capGet m.2.2 2).getD []⟩ : String) = true
    · rw [if_pos hsv]; exact hst
    · rw [if_neg hsv]
      refine mapPush_inv hst ?_ ?_ <;> rfl
  cases hm : reMatch tuplePattern line with
  | none => exact hdecl
  | some m =>
    apply foldl_preserves
      (P := fun st : List DataFlowNode × AList (List DataFlowNode) =>
        NodesInvL true st.2) _ _ _ hdecl
    intro st varDecl hst
    dsimp only
    split
    · exact hst
    · split
      · refine mapPush_inv hst ?_ ?_ <;> rfl
      · exact hst

theorem extractAssignments_inv (line : List Char) (lineNum : Nat)
    (nodes : List DataFlowNode) (edges : List DataFlowEdge)
    (defs : AList (List DataFlowNode)) (sv : List String)
    (h : NodesInvL true defs) :
    NodesInvL true (extractAssignments line lineNum nodes edges defs sv).2.2 := by
  unfold extractAssignments
  refine foldl_preserves
    (P := fun st : List DataFlowNode × List DataFlowEdge × AList (List DataFlowNode) =>
      NodesInvL true st.2.2) ?_ _ _ ?_
  · intro st m hst
    dsimp only
    split <;> exact hst
  refine foldl_preserves
    (P := fun st : List DataFlowNode × List DataFlowEdge × AList (List DataFlowNode) =>
      NodesInvL true st.2.2) ?_ _ _ h
  intro st m hst
  dsimp only
  refine foldl_preserves
    (P := fun st : List DataFlowNode × List DataFlowEdge × AList (List DataFlowNode) =>
      NodesInvL true st.2.2) ?_ _ _ ?_
  · intro s v hs
    dsimp only
    split
    · exact hs
    · split
      · exact hs
      · split
        · exact hs
        · exact hs
  · split
    · split
      · refine mapPush_inv hst ?_ ?_ <;> rfl
      · split
        · refine mapPush_inv hst ?_ ?_ <;> rfl
        · exact hst
    · exact hst

theorem extractAssignments_edges (line : List Char) (lineNum : Nat)
    (nodes : List DataFlowNode) (edges : List DataFlowEdge)
    (defs : AList (List DataFlowNode)) (sv : List String)
    (h : ∀ e ∈ edges, e.«to».isDefinition = true) :
    ∀ e ∈ (extractAssignments line lineNum nodes edges defs sv).2.1,
      e.«to».isDefinition = true := by
  unfold extractAssignments
  refine foldl_preserves
    (P := fun st : List DataFlowNode × List DataFlowEdge × AList (List DataFlowNode) =>
      ∀ e ∈ st.2.1, e.«to».isDefinition = true) ?_ _ _ ?_
  · intro st m hst
    dsimp only
    split <;> exact hst
  refine foldl_preserves
    (P := fun st : List DataFlowNode × List DataFlowEdge × AList (List DataFlowNode) =>
      ∀ e ∈ st.2.1, e.«to».isDefinition = true) ?_ _ _ h
  intro st m hst
  dsimp only
  refine foldl_preserves
    (P := fun st : List DataFlowNode × List DataFlowEdge × AList (List DataFlowNode) =>
      ∀ e ∈ st.2.1, e.«to».isDefinition = true) ?_ _ _ ?_
  · intro s v hs
    dsimp only
    split
    · exact hs
    · split
      · exact hs
      · split
        · exact hs
        · intro e he
          rcases List.mem_append.mp he with h' | h'
          · exact hs e h'
          · rw [List.mem_singleton.mp h']
  · split
    · split
      · exact hst
      · split
        · exact hst
        · exact hst
    · exact hst

theorem extractSpecialGlobals_inv (line : List Char) (lineNum : Nat)
    (nodes : List DataFlowNode) (uses : AList (List DataFlowNode))
    (h : NodesInvL false uses) :
    NodesInvL false (extractSpecialGlobals line lineNum nodes uses).2 := by
  unfold extractSpecialGlobals
  refine foldl_preserves
    (P := fun st : List DataFlowNode × AList (List DataFlowNode) =>
      NodesInvL false st.2) ?_ _ _ h
  intro st g hst
  refine foldl_preserves
    (P := fun st : List DataFlowNode × AList (List DataFlowNode) =>
      NodesInvL false st.2) ?_ _ _ hst
  intro s m hs
  refine mapPush_inv hs ?_ ?_ <;> rfl

theorem extractUses_inv (line : List Char) (lineNum : Nat)
    (nodes : List DataFlowNode) (uses : AList (List DataFlowNode))
    (defs : AList (List DataFlowNode)) (sv : List String)
    (h : NodesInvL false uses) :
    NodesInvL false (extractUses line lineNum nodes uses defs sv).2 := by
  unfold extractUses
  dsimp only
  apply extractSpecialGlobals_inv
  refine foldl_preserves
    (P := fun st : List DataFlowNode × AList (List DataFlowNode) × List String =>
      NodesInvL false st.2.1) ?_ _ _ h
  intro st m hst
  dsimp only
  split
  · exact hst
  · split
    · split
      · exact hst
      · refine mapPush_inv hst ?_ ?_ <;> rfl
    · exact hst

/-- The invariant of the analyzer's per-line state: every node indexed under
`definitions` is a definition node stored under its own name, every node
indexed under `uses` is a use node stored under its own name, and every edge
recorded during the per-line pass targets a definition node. -/
def StInv (st : DFState) : Prop :=
  NodesInvL true st.definitions ∧ NodesInvL false st.uses ∧
    ∀ e ∈ st.edges, e.«to».isDefinition = true

theorem analyzeLine_inv (sv : List String) (st : DFState) (lineNum : Nat)
    (line : List Char) (h : StInv st) : StInv (analyzeLine sv st lineNum line) := by
  obtain ⟨hd, hu, he⟩ := h
  refine ⟨?_, ?_, ?_⟩
  · exact extractAssignments_inv _ _ _ _ _ _
      (extractLocalDeclarations_inv _ _ _ _ _ hd)
  · exact extractUses_inv _ _ _ _ _ _ hu
  · exact extractAssignments_edges _ _ _ _ _ _ he

theorem analyzeState_inv (fn : FunctionInfo) (sv : List String) :
    StInv (analyzeState fn sv) := by
  unfold analyzeState
  dsimp only
  refine foldl_preserves (P := StInv) ?_ _ _ ?_
  · intro st p hst
    exact analyzeLine_inv sv st _ p.2 hst
  · refine ⟨?_, ?_, ?_⟩
    · exact extractParameterDefinitions_inv _ _ _ _ (nodesInvL_nil true)
    · exact nodesInvL_nil false
    · intro e he
      simp at he

/-! ## The most-recent-definition fold of `buildFlowEdges` (C7) -/

/-- One step of the `mostRecent` fold inside `buildFlowEdges`, abstracted over
the use node's line `l`. -/
def mrStep (l : Nat) (best : Option DataFlowNode) (d : DataFlowNode) :
    Option DataFlowNode :=
  if d.line ≤ l then
    match best with
    | none => some d
    | some b => if b.line < d.line then some d else best
  else best

/-- The use edge produced for one use node, if any. -/
def useEdgeOf (defNodes : List DataFlowNode) (u : DataFlowNode) :
    Option DataFlowEdge :=
  match defNodes.foldl (mrStep u.line) none with
  | none => none
  | some d => some { «from» := d, «to» := u, edgeType := EdgeKind.use }

/-- The use edges produced for one entry of the `uses` index. -/
def useEdgesFor (definitions : AList (List DataFlowNode))
    (entry : String × List DataFlowNode) : List DataFlowEdge :=
  match alistGet definitions entry.1 with
  | none => []
  | some defNodes =>
    if defNodes.isEmpty then []
    else entry.2.filterMap (useEdgeOf defNodes)

/-- One step of `buildFlowEdges`'s outer fold, as a named function. -/
def outerStepBFE (definitions : AList (List DataFlowNode))
    (edges : List DataFlowEdge) (entry : String × List DataFlowNode) :
    List DataFlowEdge :=
  match alistGet definitions entry.1 with
  | none => edges
  | some defNodes =>
    if defNodes.isEmpty then edges
    else
      entry.2.foldl
        (fun acc useNode =>
          match defNodes.foldl (mrStep useNode.line) none with
          | none => acc
          | some d =>
            acc ++ [{ «from» := d, «to» := useNode, edgeType := EdgeKind.use }])
        edges

theorem buildFlowEdges_eq_outerStep (edges : List DataFlowEdge)
    (definitions uses : AList (List DataFlowNode)) :
    buildFlowEdges edges definitions uses =
      uses.foldl (outerStepBFE definitions) edges := rfl

theorem useFold_eq (defNodes : List DataFlowNode) :
    ∀ (ul : List DataFlowNode) (acc : List DataFlowEdge),
      ul.foldl
        (fun acc useNode =>
          match defNodes.foldl (mrStep useNode.line) none with
          | none => acc
          | some d =>
            acc ++ [{ «from» := d, «to» := useNode, edgeType := EdgeKind.use }])
        acc = acc ++ ul.filterMap (useEdgeOf defNodes) := by
  intro ul
  induction ul with
  | nil => intro acc; simp
  | cons u rest ih =>
    intro acc
    rw [List.foldl_cons, List.filterMap_cons]
    cases hmr : defNodes.foldl (mrStep u.line) none with
    | none =>
      have hnone : useEdgeOf defNodes u = none := by
        unfold useEdgeOf
        rw [hmr]
      simp only [hmr, hnone]
      exact ih acc
    | some d =>
      have hsome : useEdgeOf defNodes u =
          some { «from» := d, «to» := u, edgeType := EdgeKind.use } := by
        unfold useEdgeOf
        rw [hmr]
      simp only [hmr, hsome]
      rw [ih]
      simp [List.append_assoc]

theorem outerStepBFE_eq (definitions : AList (List DataFlowNode))
    (edges : List DataFlowEdge) (entry : String × List DataFlowNode) :
    outerStepBFE definitions edges entry =
      edges ++ useEdgesFor definitions entry := by
  unfold outerStepBFE useEdgesFor
  cases alistGet definitions entry.1 with
  | none => simp
  | some defNodes =>
    dsimp only
    by_cases hemp : defNodes.isEmpty = true
    · rw [if_pos hemp, if_pos hemp]
      simp
    · rw [if_neg hemp, if_neg hemp]
      exact useFold_eq defNodes entry.2 edges

/-- Closed form of `buildFlowEdges`: the assignment-phase edges, followed by
one block of use edges per entry of the `uses` index. -/
theorem buildFlowEdges_closed (definitions : AList (List DataFlowNode)) :
    ∀ (uses : AList (List DataFlowNode)) (edges : List DataFlowEdge),
      buildFlowEdges edges definitions uses =
        edges ++ uses.flatMap (useEdgesFor definitions) := by
  intro uses
  induction uses with
  | nil => intro edges; simp [buildFlowEdges_eq_outerStep]
  | cons entry rest ih =>
    intro edges
    rw [buildFlowEdges_eq_outerStep]
    have h0 : (entry :: rest).foldl (outerStepBFE definitions) edges =
        rest.foldl (outerStepBFE definitions)
          (outerStepBFE definitions edges entry) := rfl
    have h1 : rest.foldl (outerStepBFE definitions)
          (outerStepBFE definitions edges entry) =
        buildFlowEdges (outerStepBFE definitions edges entry) definitions rest :=
      (buildFlowEdges_eq_outerStep _ _ _).symm
    rw [h0, h1, ih, outerStepBFE_eq, List.flatMap_cons, List.append_assoc]

/-- Case analysis of one `mrStep` step: either the accumulator is kept (and,
if the candidate is in range, only because the accumulator already holds a
node on a line at least as large), or the candidate replaces it. -/
theorem mrStep_cases (l : Nat) (acc : Option DataFlowNode) (x : DataFlowNode) :
    (mrStep l acc x = acc ∧
      (x.line ≤ l → ∃ b, acc = some b ∧ x.line ≤ b.line)) ∨
    (mrStep l acc x = some x ∧ x.line ≤ l ∧
      ∀ b, acc = some b → b.line ≤ x.line) := by
  cases acc with
  | none =>
    by_cases hc : x.line ≤ l
    · refine Or.inr ⟨?_, hc, ?_⟩
      · unfold mrStep
        rw [if_pos hc]
      · intro b hb
        cases hb
    · refine Or.inl ⟨?_, ?_⟩
      · unfold mrStep
        rw [if_neg hc]
      · intro hcl
        exact absurd hcl hc
  | some b =>
    by_cases hc : x.line ≤ l
    · by_cases hb : b.line < x.line
      · refine Or.inr ⟨?_, hc, ?_⟩
        · unfold mrStep
          rw [if_pos hc]
          show (if b.line < x.line then some x else some b) = some x
          rw [if_pos hb]
        · intro b' hb'
          injection hb' with h
          subst h
          omega
      · refine Or.inl ⟨?_, ?_⟩
        · unfold mrStep
          rw [if_pos hc]
          show (if b.line < x.line then some x else some b) = some b
          rw [if_neg hb]
        · intro _
          exact ⟨b, rfl, Nat.le_of_not_lt hb⟩
    · refine Or.inl ⟨?_, ?_⟩
      · unfold mrStep
        rw [if_neg hc]
      · intro hcl
        exact absurd hcl hc

theorem mrFold_mono {l : Nat} :
    ∀ (ds : List DataFlowNode) (b d : DataFlowNode),
      ds.foldl (mrStep l) (some b) = some d → b.line ≤ d.line := by
  intro ds
  induction ds with
  | nil =>
    intro b d h
    injection h with h'
    subst h'
    exact Nat.le_refl _
  | cons x rest ih =>
    intro b d h
    rw [List.foldl_cons] at h
    rcases mrStep_cases l (some b) x with ⟨h1, -⟩ | ⟨h1, -, hball⟩
    · rw [h1] at h
      exact ih b d h
    · rw [h1] at h
      have hbx := hball b rfl
      have := ih x d h
      omega

theorem mrFold_mem {l : Nat} :
    ∀ (ds : List DataFlowNode) (acc : Option DataFlowNode) (d : DataFlowNode),
      ds.foldl (mrStep l) acc = some d → acc = some d ∨ d ∈ ds := by
  intro ds
  induction ds with
  | nil => intro acc d h; exact Or.inl h
  | cons x rest ih =>
    intro acc d h
    rw [List.foldl_cons] at h
    rcases mrStep_cases l acc x with ⟨h1, -⟩ | ⟨h1, -, -⟩
    · rw [h1] at h
      rcases ih acc d h with h' | h'
      · exact Or.inl h'
      · exact Or.inr (List.mem_cons_of_mem _ h')
    · rw [h1] at h
      rcases ih _ d h with h' | h'
      · injection h' with h''
        exact Or.inr (h'' ▸ List.mem_cons_self _ _)
      · exact Or.inr (List.mem_cons_of_mem _ h')

theorem mrFold_le {l : Nat} :
    ∀ (ds : List DataFlowNode) (acc : Option DataFlowNode),
      (∀ b, acc = some b → b.line ≤ l) →
      ∀ d, ds.foldl (mrStep l) acc = some d → d.line ≤ l := by
  intro ds
  induction ds with
  | nil => intro acc hacc d h; exact hacc d h
  | cons x rest ih =>
    intro acc hacc d h
    rw [List.foldl_cons] at h
    rcases mrStep_cases l acc x with ⟨h1, -⟩ | ⟨h1, hxl, -⟩
    · rw [h1] at h
      exact ih acc hacc d h
    · rw [h1] at h
      refine ih _ ?_ d h
      intro b hb
      injection hb with h''
      subst h''
      exact hxl

theorem mrFold_max {l : Nat} :
    ∀ (ds : List DataFlowNode) (acc : Option DataFlowNode) (d : DataFlowNode),
      ds.foldl (mrStep l) acc = some d →
      ∀ d' ∈ ds, d'.line ≤ l → d'.line ≤ d.line := by
  intro ds
  induction ds with
  | nil =>
    intro acc d _ d' hd'
    simp at hd'
  | cons x rest ih =>
    intro acc d h d' hd' hle
    rw [List.foldl_cons] at h
    rcases List.mem_cons.mp hd' with rfl | hmem
    · rcases mrStep_cases l acc d' with ⟨h1, himp⟩ | ⟨h1, -, -⟩
      · obtain ⟨b, hb, hxb⟩ := himp hle
        rw [h1, hb] at h
        have := mrFold_mono rest b d h
        omega
      · rw [h1] at h
        exact mrFold_mono rest d' d h
    · exact ih _ d h d' hmem hle

theorem mrFold_none {l : Nat} :
    ∀ (ds : List DataFlowNode) (acc : Option DataFlowNode),
      (∀ d ∈ ds, ¬ d.line ≤ l) → ds.foldl (mrStep l) acc = acc := by
  intro ds
  induction ds with
  | nil => intro acc _; rfl
  | cons x rest ih =>
    intro acc hall
    rw [List.foldl_cons]
    rcases mrStep_cases l acc x with ⟨h1, -⟩ | ⟨-, hxl, -⟩
    · rw [h1]
      exact ih acc (fun d hd => hall d (List.mem_cons_of_mem _ hd))
    · exact absurd hxl (hall x (List.mem_cons_self _ _))

/-- **C10.** For every function input and field-name set, every node stored in
any list of the `definitions` index of the graph returned by `analyze` has
`isDefinition = true`, and every node stored in any list of the `uses` index
has `isDefinition = false`. -/
theorem C10_index_isDefinition_flags (fn : FunctionInfo) (sv : List String)
    (k : String) :
    (∀ ns, alistGet (analyze fn sv).definitions k = some ns →
      ∀ n ∈ ns, n.isDefinition = true) ∧
    (∀ ns, alistGet (analyze fn sv).uses k = some ns →
      ∀ n ∈ ns, n.isDefinition = false) := by
  obtain ⟨hd, hu, -⟩ := analyzeState_inv fn sv
  constructor
  · intro ns hns n hn
    exact (hd _ (alistGet_mem hns) n hn).1
  · intro ns hns n hn
    exact (hu _ (alistGet_mem hns) n hn).1

/-- The one-parameter one-liner `g(x) : "x;"` that makes `buildFlowEdges`
link a use to a definition on the same line. -/
def fnC7 : FunctionInfo :=
  { name := "g", parameters := [{ name := "x" }], fullSource := "x;",
    location := { start := { line := 1 } } }

/-- The parameter-definition node `analyze` produces for `fnC7`. -/
def defNodeC7 : DataFlowNode :=
  { varName := "x", kind := NodeKind.parameter, line := 1, column := 0,
    isDefinition := true, typeName := some "" }

/-- The use node `analyze` produces for `fnC7`, on the definition's line. -/
def useNodeC7 : DataFlowNode :=
  { varName := "x", kind := NodeKind.parameter, line := 1, column := 0,
    isDefinition := false }

/-- The single use edge `analyze` produces for `fnC7`: definition and use of
`x` both lie on line 1. -/
def eC7 : DataFlowEdge :=
  { «from» := defNodeC7, «to» := useNodeC7, edgeType := EdgeKind.use }

/-- Refutation of the claim's third part: `buildFlowEdges` compares the
definition's line with `<=`, so a definition on the exact use line IS linked
to that use. On `fnC7` the graph contains a use edge whose two endpoints lie
on the same line. -/
theorem C7_counterexample_same_line_def_is_linked :
    eC7 ∈ (analyze fnC7 []).edges ∧ eC7.«to».isDefinition = false ∧
      eC7.«from».line = eC7.«to».line := by
  decide

/-- Amended C7: in every graph returned by `analyze`, (1) every edge whose
target is not a definition node goes from a same-name definition stored in
the `definitions` index under the use's name, lying on a line at or before
(including equal to) the use's line, and no definition in that index entry
at or before the use's line is more recent; (2) a use node indexed under a
name all of whose indexed definitions lie strictly after the use's line is
the target of no edge. The original claim's third part (a definition on the
exact use line is never linked) is false: the builder compares lines with
`<=`, see the counterexample. -/
theorem C7_use_edges_most_recent (fn : FunctionInfo) (sv : List String) :
    (∀ e ∈ (analyze fn sv).edges, e.«to».isDefinition = false →
      e.«from».isDefinition = true ∧
      e.«from».varName = e.«to».varName ∧
      e.«from».line ≤ e.«to».line ∧
      ∃ ds, alistGet (analyze fn sv).definitions e.«to».varName = some ds ∧
        e.«from» ∈ ds ∧
        ∀ d ∈ ds, d.line ≤ e.«to».line → d.line ≤ e.«from».line) ∧
    (∀ p ∈ (analyze fn sv).uses, ∀ u ∈ p.2,
      (∀ ds, alistGet (analyze fn sv).definitions p.1 = some ds →
        ∀ d ∈ ds, ¬ d.line ≤ u.line) →
      ∀ e ∈ (analyze fn sv).edges, e.«to» ≠ u) := by
  obtain ⟨hd, hu, he⟩ := analyzeState_inv fn sv
  have hE : (analyze fn sv).edges =
      (analyzeState fn sv).edges ++
        (analyzeState fn sv).uses.flatMap
          (useEdgesFor (analyzeState fn sv).definitions) := by
    have h0 : (analyze fn sv).edges =
        buildFlowEdges (analyzeState fn sv).edges
          (analyzeState fn sv).definitions (analyzeState fn sv).uses := rfl
    rw [h0, buildFlowEdges_closed]
  have hD : (analyze fn sv).definitions = (analyzeState fn sv).definitions := rfl
  constructor
  · intro e hedge hto
    rw [hE] at hedge
    rcases List.mem_append.mp hedge with hA | hB
    · have h1 := he e hA
      rw [hto] at h1
      exact absurd h1 (by decide)
    · rcases List.mem_flatMap.mp hB with ⟨entry, hentry, hein⟩
      unfold useEdgesFor at hein
      cases hget : alistGet (analyzeState fn sv).definitions entry.1 with
      | none =>
        simp only [hget] at hein
        simp at hein
      | some ds =>
        simp only [hget] at hein
        by_cases hemp : ds.isEmpty = true
        · rw [if_pos hemp] at hein
          simp at hein
        · rw [if_neg hemp] at hein
          rcases List.mem_filterMap.mp hein with ⟨u, humem, hue⟩
          unfold useEdgeOf at hue
          cases hmr : ds.foldl (mrStep u.line) none with
          | none =>
            simp only [hmr] at hue
            exact Option.noConfusion hue
          | some dd =>
            simp only [hmr] at hue
            injection hue with hue
            subst hue
            have hdprop := hd _ (alistGet_mem hget)
            have huprop := hu entry hentry u humem
            have hddmem : dd ∈ ds := by
              rcases mrFold_mem ds none dd hmr with h' | h'
              · cases h'
              · exact h'
            have hdd := hdprop dd hddmem
            refine ⟨hdd.1, ?_, ?_, ds, ?_, hddmem, ?_⟩
            · show dd.varName = u.varName
              rw [hdd.2, huprop.2]
            · show dd.line ≤ u.line
              exact mrFold_le ds none (by intro b hb; cases hb) dd hmr
            · show alistGet (analyze fn sv).definitions u.varName = some ds
              rw [hD, huprop.2]
              exact hget
            · intro d hdmem hdle
              exact mrFold_max ds none dd hmr d hdmem hdle
  · intro p hp u hup hnone e hedge heq
    rw [hE] at hedge
    have hufalse := (hu p hp u hup).1
    rcases List.mem_append.mp hedge with hA | hB
    · have h1 := he e hA
      rw [heq, hufalse] at h1
      exact absurd h1 (by decide)
    · rcases List.mem_flatMap.mp hB with ⟨entry, hentry, hein⟩
      unfold useEdgesFor at hein
      cases hget : alistGet (analyzeState fn sv).definitions entry.1 with
      | none =>
        simp only [hget] at hein
        simp at hein
      | some ds =>
        simp only [hget] at hein
        by_cases hemp : ds.isEmpty = true
        · rw [if_pos hemp] at hein
          simp at hein
        · rw [if_neg hemp] at hein
          rcases List.mem_filterMap.mp hein with ⟨u', humem, hue⟩
          unfold useEdgeOf at hue
          cases hmr : ds.foldl (mrStep u'.line) none with
          | none =>
            simp only [hmr] at hue
            exact Option.noConfusion hue
          | some dd =>
            simp only [hmr] at hue
            injection hue with hue
            have htoe : e.«to» = u' := by
              rw [← hue]
            have hu'eq : u' = u := by
              rw [← htoe, heq]
            have h1 : entry.1 = u.varName := by
              rw [← hu'eq]
              exact ((hu entry hentry u' humem).2).symm
            have h2 : p.1 = u.varName := ((hu p hp u hup).2).symm
            have hget' :
                alistGet (analyzeState fn sv).definitions p.1 = some ds := by
              rw [h2, ← h1]
              exact hget
            have hall := hnone ds (by rw [hD]; exact hget')
            have hmrnone : ds.foldl (mrStep u'.line) none = none := by
              rw [hu'eq]
              exact mrFold_none ds none hall
            rw [hmrnone] at hmr
            cases hmr

/-- Witness: the amended C7 theorem applied to the concrete edge of `fnC7`. -/
theorem C7_use_edges_most_recent_witness :
    eC7.«from».isDefinition = true ∧
    eC7.«from».varName = eC7.«to».varName ∧
    eC7.«from».line ≤ eC7.«to».line ∧
    ∃ ds, alistGet (analyze fnC7 []).definitions eC7.«to».varName = some ds ∧
      eC7.«from» ∈ ds ∧
      ∀ d ∈ ds, d.line ≤ eC7.«to».line → d.line ≤ eC7.«from».line :=
  (C7_use_edges_most_recent fnC7 []).1 eC7 (by decide) (by decide)

/-- The canonical example function of the specification: one `uint256`
parameter and a single mapping write to a state variable. -/
def fnC8 : FunctionInfo :=
  { name := "f",
    parameters := [{ name := "amount_", typeName := "uint256" }],
    fullSource :=
      "function f(uint256 amount_) public \x7b balanceOf_[msg.sender] = amount_; \x7d",
    location := { start := { line := 1 } } }

/-- Claim C8: analyzing the canonical example with field set `balanceOf_`
yields exactly one parameter-definition node for `amount_` tagged
`token-amount`, exactly one use node for `amount_`, exactly one use node for
`msg.sender` tagged `msg-sender`, and exactly one state-write sink on the
assignment's line whose input-variable list contains `amount_`. -/
theorem C8_canonical_example :
    ((analyze fnC8 ["balanceOf_"]).nodes.filter (fun n =>
        n.isDefinition && n.kind == NodeKind.parameter &&
        n.varName == "amount_" &&
        n.defiTag == some DefiTag.tokenAmount)).length = 1 ∧
    ((analyze fnC8 ["balanceOf_"]).nodes.filter (fun n =>
        !n.isDefinition && n.varName == "amount_")).length = 1 ∧
    ((analyze fnC8 ["balanceOf_"]).nodes.filter (fun n =>
        !n.isDefinition && n.varName == "msg.sender" &&
        n.defiTag == some DefiTag.msgSender)).length = 1 ∧
    ((analyze fnC8 ["balanceOf_"]).sinks.filter (fun s =>
        s.kind == SinkKind.stateWrite && s.line == 1 &&
        s.inputVars.contains "amount_")).length = 1 := by
  decide

/-! ## Serialization roundtrip (C9) -/

theorem alistSet_append_of_absent {α : Type} :
    ∀ (m : AList α) (k : String) (v : α),
      (∀ p ∈ m, p.1 ≠ k) → alistSet m k v = m ++ [(k, v)] := by
  intro m
  induction m with
  | nil => intro k v _; rfl
  | cons q rest ih =>
    intro k v h
    obtain ⟨k₀, v₀⟩ := q
    have hq : k₀ ≠ k := h (k₀, v₀) (List.mem_cons_self _ _)
    have hq' : (k₀ == k) = false := by simpa using hq
    simp only [alistSet, hq', Bool.false_eq_true, if_false, List.cons_append]
    rw [ih k v (fun p hp => h p (List.mem_cons_of_mem _ hp))]

theorem mapFromPairs_nodup_aux {α : Type} :
    ∀ (l : List (String × α)) (acc : AList α),
      (∀ p ∈ acc, ∀ q ∈ l, p.1 ≠ q.1) → (l.map Prod.fst).Nodup →
      l.foldl (fun m p => alistSet m p.1 p.2) acc = acc ++ l := by
  intro l
  induction l with
  | nil => intro acc _ _; simp
  | cons q rest ih =>
    intro acc hdisj hnodup
    rw [List.map_cons, List.nodup_cons] at hnodup
    rw [List.foldl_cons]
    rw [alistSet_append_of_absent acc q.1 q.2
      (fun p hp => hdisj p hp q (List.mem_cons_self _ _))]
    rw [ih (acc ++ [q]) ?_ hnodup.2]
    · simp
    · intro p hp r hr
      rcases List.mem_append.mp hp with h' | h'
      · exact hdisj p h' r (List.mem_cons_of_mem _ hr)
      · rw [List.mem_singleton.mp h']
        intro hqr
        have : q.1 ∈ rest.map Prod.fst := by
          rw [hqr]
          exact List.mem_map_of_mem Prod.fst hr
        exact hnodup.1 this

/-- `new Map(pairs)` rebuilt from a duplicate-free-keys pair list is that
list itself. -/
theorem mapFromPairs_of_nodup {α : Type} (l : List (String × α))
    (h : (l.map Prod.fst).Nodup) : mapFromPairs l = l := by
  unfold mapFromPairs
  rw [mapFromPairs_nodup_aux l [] (by intro p hp; simp at hp) h]
  simp

/-- Claim C9: serializing a graph to the flat transport form and rebuilding
the `definitions` and `uses` indices with `new Map(pairs)` reproduces the
original association lists exactly (same key set, same key insertion order,
same per-key node-list order). The duplicate-free-keys hypotheses express
the `Map` class invariant: a JS `Map` cannot hold the same key twice, so
every serialized pair list has pairwise distinct keys. -/
theorem C9_serialize_roundtrip (g : DataFlowGraph)
    (hd : (g.definitions.map Prod.fst).Nodup)
    (hu : (g.uses.map Prod.fst).Nodup) :
    mapFromPairs (serializeGraph g).definitions = g.definitions ∧
    mapFromPairs (serializeGraph g).uses = g.uses :=
  ⟨mapFromPairs_of_nodup _ hd, mapFromPairs_of_nodup _ hu⟩

/-- A small concrete graph exercising the roundtrip. -/
def gC9 : DataFlowGraph :=
  { nodes := [], edges := [], sinks := [],
    definitions := [("a", [defNodeC7]), ("b", [])],
    uses := [("c", [useNodeC7])] }

/-- Witness: the C9 roundtrip applied to the concrete graph `gC9`. -/
theorem C9_serialize_roundtrip_witness :
    mapFromPairs (serializeGraph gC9).definitions = gC9.definitions ∧
    mapFromPairs (serializeGraph gC9).uses = gC9.uses :=
  C9_serialize_roundtrip gC9 (by decide) (by decide)

/-- The one-parameter function used to witness C10 concretely. -/
def fnC10 : FunctionInfo :=
  { name := "h", parameters := [{ name := "y" }], fullSource := "y;",
    location := { start := { line := 2 } } }

/-- The definition node `analyze` stores for `fnC10` under key `y`. -/
def defNodeC10 : DataFlowNode :=
  { varName := "y", kind := NodeKind.parameter, line := 2, column := 0,
    isDefinition := true, typeName := some "" }

/-- The use node `analyze` stores for `fnC10` under key `y`. -/
def useNodeC10 : DataFlowNode :=
  { varName := "y", kind := NodeKind.parameter, line := 2, column := 0,
    isDefinition := false }

/-- Witness: the C10 flags theorem applied to the concrete graph of `fnC10`. -/
theorem C10_index_isDefinition_flags_witness :
    defNodeC10.isDefinition = true ∧ useNodeC10.isDefinition = false :=
  ⟨(C10_index_isDefinition_flags fnC10 [] "y").1 [defNodeC10] (by decide)
      defNodeC10 (by decide),
   (C10_index_isDefinition_flags fnC10 [] "y").2 [useNodeC10] (by decide)
      useNodeC10 (by decide)⟩

end SolidityDiagram
